import Mathlib

/-!
Verification of the client-side include components of the portfolio site:
the header component (src/components/header.js) and the footer component
(src/components/footer.js).

The DOM is embedded shallowly: a document is a forest of element nodes.
Each element carries a machine identity `ref : Nat` (standing for the
JavaScript object identity of the element), a tag name, an optional id
attribute, a class list, further attributes and a text content.  Click
listeners are kept in a global registration list, as pairs of a target
identity and the captured action of the closure; the two closures that
occur in header.js are `classList.toggle` of the class hidden and
`classList.add` of the class hidden on a captured element.
`innerHTML` assignment parses a fixed markup fragment; this is embedded
by instantiating a ref-free template forest, allocating fresh identities
from a counter `nextRef`.
-/

structure Elem where
  ref : Nat
  tag : String
  idAttr : Option String
  classes : List String
  attrs : List (String × String)
  text : String
deriving DecidableEq

mutual
inductive Node : Type where
| mk : Elem → NodeList → Node
inductive NodeList : Type where
| nil : NodeList
| cons : Node → NodeList → NodeList
end

def Node.elemOf : Node → Elem
| .mk e _ => e

def Node.kids : Node → NodeList
| .mk _ cs => cs

def NodeList.ofL : List Node → NodeList
| [] => .nil
| t :: ts => .cons t (NodeList.ofL ts)

structure TElem where
  tag : String
  idAttr : Option String
  classes : List String
  attrs : List (String × String)
  text : String
deriving DecidableEq

mutual
inductive TNode : Type where
| mk : TElem → TNodeList → TNode
inductive TNodeList : Type where
| nil : TNodeList
| cons : TNode → TNodeList → TNodeList
end

def TNodeList.ofL : List TNode → TNodeList
| [] => .nil
| t :: ts => .cons t (TNodeList.ofL ts)

/-- Building an element from a template element, assigning identity `r`. -/
def mkElem (r : Nat) (te : TElem) : Elem :=
  ⟨r, te.tag, te.idAttr, te.classes, te.attrs, te.text⟩

mutual
def instT : TNode → Nat → Node × Nat
| .mk te ts, n =>
  (Node.mk (mkElem n te) (instL ts (n + 1)).1, (instL ts (n + 1)).2)
def instL : TNodeList → Nat → NodeList × Nat
| .nil, n => (.nil, n)
| .cons t ts, n =>
  (NodeList.cons (instT t n).1 (instL ts (instT t n).2).1, (instL ts (instT t n).2).2)
end

mutual
def findByIdT (s : String) : Node → Option Node
| .mk e cs => if e.idAttr = some s then some (.mk e cs) else findByIdL s cs
def findByIdL (s : String) : NodeList → Option Node
| .nil => none
| .cons t ts =>
  match findByIdT s t with
  | some u => some u
  | none => findByIdL s ts
end

mutual
def nodeOfT (r : Nat) : Node → Option Node
| .mk e cs => if e.ref = r then some (.mk e cs) else nodeOfL r cs
def nodeOfL (r : Nat) : NodeList → Option Node
| .nil => none
| .cons t ts =>
  match nodeOfT r t with
  | some u => some u
  | none => nodeOfL r ts
end

mutual
def replaceT (r : Nat) (cs : NodeList) : Node → Node
| .mk e kids => if e.ref = r then .mk e cs else .mk e (replaceL r cs kids)
def replaceL (r : Nat) (cs : NodeList) : NodeList → NodeList
| .nil => .nil
| .cons t ts => .cons (replaceT r cs t) (replaceL r cs ts)
end

mutual
def updClT (r : Nat) (g : List String → List String) : Node → Node
| .mk e kids =>
  .mk (if e.ref = r then { e with classes := g e.classes } else e) (updClL r g kids)
def updClL (r : Nat) (g : List String → List String) : NodeList → NodeList
| .nil => .nil
| .cons t ts => .cons (updClT r g t) (updClL r g ts)
end

mutual
def sumET (μ : Elem → Nat) : Node → Nat
| .mk e cs => μ e + sumEL μ cs
def sumEL (μ : Elem → Nat) : NodeList → Nat
| .nil => 0
| .cons t ts => sumET μ t + sumEL μ ts
end

/- All descendant links (tag a), in document order, by identity. -/
mutual
def collectAT : Node → List Nat
| .mk e cs => (if e.tag = "a" then [e.ref] else []) ++ collectAL cs
def collectAL : NodeList → List Nat
| .nil => []
| .cons t ts => collectAT t ++ collectAL ts
end

/- The selector of the querySelectorAll call of header.js: all link
descendants of an element whose id attribute is mobileMenu. -/
mutual
def selLinksT : Node → List Nat
| .mk e cs => if e.idAttr = some "mobileMenu" then collectAL cs else selLinksL cs
def selLinksL : NodeList → List Nat
| .nil => []
| .cons t ts => selLinksT t ++ selLinksL ts
end

mutual
def hasH1T : Node → Bool
| .mk e cs => e.tag = "h1" || hasH1L cs
def hasH1L : NodeList → Bool
| .nil => false
| .cons t ts => hasH1T t || hasH1L ts
end

/- A brand link is a link (tag a) whose subtree holds the brand heading
(an h1 element); in the header fragment this is exactly the link wrapping
the site title, as opposed to the plain menu links. -/
mutual
def countBrandT : Node → Nat
| .mk e cs => (if e.tag = "a" ∧ hasH1L cs then 1 else 0) + countBrandL cs
def countBrandL : NodeList → Nat
| .nil => 0
| .cons t ts => countBrandT t + countBrandL ts
end

mutual
def shiftT (k : Nat) : Node → Node
| .mk e cs => .mk { e with ref := k + e.ref } (shiftL k cs)
def shiftL (k : Nat) : NodeList → NodeList
| .nil => .nil
| .cons t ts => .cons (shiftT k t) (shiftL k ts)
end

/-- Indicator measure: the element has identity r. -/
def refE (r : Nat) (e : Elem) : Nat := if e.ref = r then 1 else 0

/-- Indicator measure: the element carries the id attribute s. -/
def idE (s : String) (e : Elem) : Nat := if e.idAttr = some s then 1 else 0

/-- Indicator measure: the element is the menu toggle button (a button
carrying id menuBtn). -/
def togE (e : Elem) : Nat := if e.tag = "button" ∧ e.idAttr = some "menuBtn" then 1 else 0

/-- Indicator measure: the element holds exactly the given text. -/
def textE (s : String) (e : Elem) : Nat := if e.text = s then 1 else 0

/-! ## The document state and the component code -/

/-- The captured closures of header.js: `mobileMenu.classList.toggle` of
hidden, and `mobileMenu.classList.add` of hidden, on a captured element. -/
inductive HAction : Type where
| toggleHidden : Nat → HAction
| addHidden : Nat → HAction
deriving DecidableEq

structure Dom where
  root : NodeList
  handlers : List (Nat × HAction)
  nextRef : Nat

/-- `document.getElementById`: the first element in document order whose
id attribute matches, if any, by identity. -/
def getElementById (d : Dom) (s : String) : Option Nat :=
  (findByIdL s d.root).map (fun t => (Node.elemOf t).ref)

/-- `container.innerHTML = fragment`: the children of every node with the
given identity are replaced by a fresh instantiation of the fragment. -/
def setInnerHTML (d : Dom) (r : Nat) (frag : TNodeList) : Dom :=
  { d with root := replaceL r (instL frag d.nextRef).1 d.root,
           nextRef := (instL frag d.nextRef).2 }

/-- `el.addEventListener` of a click closure. -/
def addListener (d : Dom) (r : Nat) (a : HAction) : Dom :=
  { d with handlers := d.handlers ++ [(r, a)] }

/-- `classList.toggle` of hidden: remove the class when present, append
it otherwise. -/
def toggleCls (c : List String) : List String :=
  if "hidden" ∈ c then c.filter (fun x => x ≠ "hidden") else c ++ ["hidden"]

/-- `classList.add` of hidden: append the class when absent. -/
def addCls (c : List String) : List String :=
  if "hidden" ∈ c then c else c ++ ["hidden"]

def applyAction (d : Dom) : HAction → Dom
| .toggleHidden t => { d with root := updClL t toggleCls d.root }
| .addHidden t => { d with root := updClL t addCls d.root }

/-- Dispatching a click on the element with identity r: every registered
listener whose target is r fires, in registration order. -/
def click (d : Dom) (r : Nat) : Dom :=
  ((d.handlers.filter (fun h => h.1 = r)).map Prod.snd).foldl applyAction d

def clicks (d : Dom) (r : Nat) : Nat → Dom
| 0 => d
| k + 1 => click (clicks d r k) r

/-- Whether the mobile panel (the first element with id mobileMenu) is in
the hidden state, i.e. carries the class hidden. -/
def menuHidden (d : Dom) : Bool :=
  match findByIdL "mobileMenu" d.root with
  | some t => decide ("hidden" ∈ (Node.elemOf t).classes)
  | none => true

/-- The markup fragment assigned by header.js to the container (comments
of the original markup are not elements and do not appear). -/
def headerTmpl : TNode :=
  .mk ⟨"header", none,
      ["sticky", "top-0", "z-50", "bg-background-light/95", "dark:bg-background-dark/95",
       "backdrop-blur-sm", "border-b", "border-gray-200", "dark:border-gray-700"], [], ""⟩
    (TNodeList.ofL
      [.mk ⟨"div", none,
            ["flex", "items-center", "p-4", "justify-between", "max-w-7xl", "mx-auto"], [], ""⟩
        (TNodeList.ofL
          [.mk ⟨"a", none, ["flex", "items-center", "gap-3", "group"],
                [("href", "index.html")], ""⟩
            (TNodeList.ofL
              [.mk ⟨"div", none, ["w-1", "h-12", "bg-primary", "rounded-full"], [], ""⟩ .nil,
               .mk ⟨"div", none, [], [], ""⟩
                (TNodeList.ofL
                  [.mk ⟨"h1", none,
                        ["text-text-dark-gray", "dark:text-background-light", "text-xl",
                         "font-black", "leading-tight", "group-hover:text-primary",
                         "transition-colors"], [], "Jose Aristizabal"⟩ .nil,
                   .mk ⟨"p", none,
                        ["text-gray-600", "dark:text-gray-400", "text-sm", "leading-tight"],
                        [], "Solution Architect"⟩ .nil])]),
           .mk ⟨"button", some "menuBtn",
                ["text-text-dark-gray", "dark:text-background-light", "flex", "size-12",
                 "shrink-0", "items-center", "justify-end"],
                [("aria-label", "Open menu")], ""⟩
            (TNodeList.ofL
              [.mk ⟨"span", none, ["material-symbols-outlined", "text-3xl"], [], "menu"⟩ .nil])]),
       .mk ⟨"nav", some "mobileMenu",
            ["hidden", "bg-white", "dark:bg-gray-800", "border-t", "border-gray-200",
             "dark:border-gray-700"], [], ""⟩
        (TNodeList.ofL
          [.mk ⟨"div", none, ["flex", "flex-col", "p-4", "space-y-2"], [], ""⟩
            (TNodeList.ofL
              [.mk ⟨"a", none,
                    ["py-2", "px-4", "hover:bg-gray-100", "dark:hover:bg-gray-700",
                     "rounded-lg", "transition-colors"], [("href", "index.html")], "Home"⟩ .nil,
               .mk ⟨"a", none,
                    ["py-2", "px-4", "hover:bg-gray-100", "dark:hover:bg-gray-700",
                     "rounded-lg", "transition-colors"], [("href", "contact.html")], "Contact"⟩
                 .nil])])])

def hdrFrag : TNodeList := TNodeList.ofL [headerTmpl]

/-- The copyright line of the footer fragment. -/
def copyTxt : String := "© 2025 Jose Aristizabal. All Rights Reserved."

/-- The markup fragment assigned by footer.js to the container. -/
def footerTmpl : TNode :=
  .mk ⟨"footer", none,
      ["bg-white", "dark:bg-gray-800", "border-t", "border-gray-200",
       "dark:border-gray-700", "py-6"], [], ""⟩
    (TNodeList.ofL
      [.mk ⟨"div", none, ["max-w-7xl", "mx-auto", "px-4", "text-center"], [], ""⟩
        (TNodeList.ofL
          [.mk ⟨"p", none, ["text-gray-500", "dark:text-gray-400", "text-sm"], [],
                copyTxt⟩ .nil])])

def ftrFrag : TNodeList := TNodeList.ofL [footerTmpl]

/-- The forEach loop of header.js that registers the handlers closing the
menu on every link of the mobile panel. -/
def addLinkCloseHandlers (links : List Nat) (mm : Nat) (d : Dom) : Dom :=
  links.foldl (fun dd l => addListener dd l (.addHidden mm)) d

/-- The menu wiring block of loadHeader: look up menuBtn and mobileMenu
by document global id lookup, and only when both are found register the
toggle handler on the button and then a close handler on every link of
the mobile panel, in document order. -/
def wireHeader (d1 : Dom) : Dom :=
  match getElementById d1 "menuBtn", getElementById d1 "mobileMenu" with
  | some mb, some mm =>
    addLinkCloseHandlers (selLinksL d1.root) mm (addListener d1 mb (.toggleHidden mm))
  | some _, none => d1
  | none, _ => d1

/-- loadHeader of src/components/header.js: locate the container with id
header-container; when absent do nothing; otherwise assign the header
fragment to its contents and wire the menu interactions. -/
def loadHeader (d : Dom) : Dom :=
  match getElementById d "header-container" with
  | none => d
  | some hc => wireHeader (setInnerHTML d hc hdrFrag)

/-- loadFooter of src/components/footer.js: locate the container with id
footer-container; when absent do nothing; otherwise assign the footer
fragment to its contents. -/
def loadFooter (d : Dom) : Dom :=
  match getElementById d "footer-container" with
  | none => d
  | some fc => setInnerHTML d fc ftrFrag

/-! ## The mount scheduling of both scripts -/

inductive ReadyState : Type where
| loading : ReadyState
| interactive : ReadyState
| complete : ReadyState
deriving DecidableEq

inductive MountKind : Type where
| header : MountKind
| footer : MountKind
deriving DecidableEq

def runMount : MountKind → Dom → Dom
| .header => loadHeader
| .footer => loadFooter

/-- A page as the scripts observe it: the document, its readyState, and
the registered DOMContentLoaded listeners, in registration order. -/
structure Page where
  dom : Dom
  ready : ReadyState
  listeners : List MountKind

/-- The top-level statement of both scripts: while the document is still
loading, defer the mount by registering it on DOMContentLoaded; otherwise
run the mount immediately and synchronously.  The second component counts
how many mounts ran during this step. -/
def runScript (m : MountKind) (p : Page) : Page × Nat :=
  if p.ready = .loading then
    ({ p with listeners := p.listeners ++ [m] }, 0)
  else
    ({ p with dom := runMount m p.dom }, 1)

/-- The one-time DOMContentLoaded signal: when the document is still
loading, it becomes interactive and every registered listener runs once,
in order; once fired, firing again is impossible (a no-op here).  The
second component counts how many mounts ran. -/
def fireReady (p : Page) : Page × Nat :=
  if p.ready = .loading then
    ({ dom := p.listeners.foldl (fun dm mk => runMount mk dm) p.dom,
       ready := .interactive, listeners := [] }, p.listeners.length)
  else (p, 0)

/-! ## Concrete pages used as witnesses and counterexamples -/

/-- A representative host page: a body holding some unrelated content and
the two empty placeholder containers. -/
def samplePage : Dom :=
  { root := NodeList.ofL
      [.mk ⟨0, "body", none, [], [], ""⟩ (NodeList.ofL
        [.mk ⟨1, "main", none, [], [], ""⟩ .nil,
         .mk ⟨2, "div", some "header-container", [], [], ""⟩ .nil,
         .mk ⟨3, "div", some "footer-container", [], [], ""⟩ .nil])],
    handlers := [], nextRef := 4 }

/-- A page exposing neither placeholder. -/
def barePage : Dom :=
  { root := NodeList.ofL
      [.mk ⟨0, "body", none, [], [], ""⟩ (NodeList.ofL
        [.mk ⟨1, "p", none, [], [], "hello"⟩ .nil])],
    handlers := [], nextRef := 2 }

/-- A page that already holds a toggle button outside the container. -/
def dupBtnPage : Dom :=
  { root := NodeList.ofL
      [.mk ⟨0, "body", none, [], [], ""⟩ (NodeList.ofL
        [.mk ⟨1, "button", some "menuBtn", [], [], ""⟩ .nil,
         .mk ⟨2, "div", some "header-container", [], [], ""⟩ .nil])],
    handlers := [], nextRef := 3 }

/-- A page that already holds an element with id menuBtn, earlier in
document order than the container. -/
def dupIdPage : Dom :=
  { root := NodeList.ofL
      [.mk ⟨0, "body", none, [], [], ""⟩ (NodeList.ofL
        [.mk ⟨1, "div", some "menuBtn", [], [], ""⟩ .nil,
         .mk ⟨2, "div", some "header-container", [], [], ""⟩ .nil])],
    handlers := [], nextRef := 3 }

/-- A page that already holds elements with ids menuBtn and mobileMenu,
both earlier in document order than the container. -/
def dupBothPage : Dom :=
  { root := NodeList.ofL
      [.mk ⟨0, "body", none, [], [], ""⟩ (NodeList.ofL
        [.mk ⟨1, "div", some "menuBtn", [], [], ""⟩ .nil,
         .mk ⟨2, "div", some "mobileMenu", [], [], ""⟩ .nil,
         .mk ⟨3, "div", some "header-container", [], [], ""⟩ .nil])],
    handlers := [], nextRef := 4 }


/-! ## Shift and instantiation lemmas -/

theorem shiftT_elemOf (k : Nat) (t : Node) :
    (shiftT k t).elemOf = { t.elemOf with ref := k + t.elemOf.ref } := by
  cases t; rfl

mutual
theorem sum_shiftT (μ : Elem → Nat) (hμ : ∀ r e, μ { e with ref := r } = μ e) (k : Nat) :
    ∀ t : Node, sumET μ (shiftT k t) = sumET μ t
| .mk e cs => by
  simp only [shiftT, sumET, sum_shiftL μ hμ k cs, hμ]
theorem sum_shiftL (μ : Elem → Nat) (hμ : ∀ r e, μ { e with ref := r } = μ e) (k : Nat) :
    ∀ f : NodeList, sumEL μ (shiftL k f) = sumEL μ f
| .nil => rfl
| .cons t ts => by
  simp only [shiftL, sumEL, sum_shiftT μ hμ k t, sum_shiftL μ hμ k ts]
end

mutual
theorem find_shiftT (s : String) (k : Nat) :
    ∀ t : Node, findByIdT s (shiftT k t) = (findByIdT s t).map (shiftT k)
| .mk e cs => by
  by_cases h : e.idAttr = some s
  · simp [shiftT, findByIdT, h]
  · simp [shiftT, findByIdT, h, find_shiftL s k cs]
theorem find_shiftL (s : String) (k : Nat) :
    ∀ f : NodeList, findByIdL s (shiftL k f) = (findByIdL s f).map (shiftT k)
| .nil => rfl
| .cons t ts => by
  cases h : findByIdT s t with
  | none => simp [shiftL, findByIdL, find_shiftT s k t, h, find_shiftL s k ts]
  | some u => simp [shiftL, findByIdL, find_shiftT s k t, h]
end

mutual
theorem collect_shiftT (k : Nat) :
    ∀ t : Node, collectAT (shiftT k t) = (collectAT t).map (fun x => k + x)
| .mk e cs => by
  by_cases h : e.tag = "a"
  · simp [shiftT, collectAT, h, collect_shiftL k cs]
  · simp [shiftT, collectAT, h, collect_shiftL k cs]
theorem collect_shiftL (k : Nat) :
    ∀ f : NodeList, collectAL (shiftL k f) = (collectAL f).map (fun x => k + x)
| .nil => rfl
| .cons t ts => by
  simp [shiftL, collectAL, collect_shiftT k t, collect_shiftL k ts]
end

mutual
theorem sel_shiftT (k : Nat) :
    ∀ t : Node, selLinksT (shiftT k t) = (selLinksT t).map (fun x => k + x)
| .mk e cs => by
  by_cases h : e.idAttr = some "mobileMenu"
  · simp [shiftT, selLinksT, h, collect_shiftL k cs]
  · simp [shiftT, selLinksT, h, sel_shiftL k cs]
theorem sel_shiftL (k : Nat) :
    ∀ f : NodeList, selLinksL (shiftL k f) = (selLinksL f).map (fun x => k + x)
| .nil => rfl
| .cons t ts => by
  simp [shiftL, selLinksL, sel_shiftT k t, sel_shiftL k ts]
end

mutual
theorem hasH1_shiftT (k : Nat) : ∀ t : Node, hasH1T (shiftT k t) = hasH1T t
| .mk e cs => by
  simp [shiftT, hasH1T, hasH1_shiftL k cs]
theorem hasH1_shiftL (k : Nat) : ∀ f : NodeList, hasH1L (shiftL k f) = hasH1L f
| .nil => rfl
| .cons t ts => by
  simp [shiftL, hasH1L, hasH1_shiftT k t, hasH1_shiftL k ts]
end

mutual
theorem brand_shiftT (k : Nat) : ∀ t : Node, countBrandT (shiftT k t) = countBrandT t
| .mk e cs => by
  simp [shiftT, countBrandT, hasH1_shiftL k cs, brand_shiftL k cs]
theorem brand_shiftL (k : Nat) : ∀ f : NodeList, countBrandL (shiftL k f) = countBrandL f
| .nil => rfl
| .cons t ts => by
  simp [shiftL, countBrandL, brand_shiftT k t, brand_shiftL k ts]
end

mutual
theorem inst_shiftT : ∀ (t : TNode) (n m : Nat),
    (instT t (n + m)).1 = shiftT n (instT t m).1 ∧ (instT t (n + m)).2 = n + (instT t m).2
| .mk te ts, n, m => by
  have h := inst_shiftL ts n (m + 1)
  constructor
  · show Node.mk (mkElem (n + m) te) (instL ts (n + m + 1)).1
        = shiftT n (Node.mk (mkElem m te) (instL ts (m + 1)).1)
    rw [show n + m + 1 = n + (m + 1) from by omega, h.1]
    rfl
  · show (instL ts (n + m + 1)).2 = n + (instL ts (m + 1)).2
    rw [show n + m + 1 = n + (m + 1) from by omega, h.2]
theorem inst_shiftL : ∀ (f : TNodeList) (n m : Nat),
    (instL f (n + m)).1 = shiftL n (instL f m).1 ∧ (instL f (n + m)).2 = n + (instL f m).2
| .nil, n, m => ⟨rfl, rfl⟩
| .cons t ts, n, m => by
  have ht := inst_shiftT t n m
  have hts := inst_shiftL ts n (instT t m).2
  constructor
  · show NodeList.cons (instT t (n + m)).1 (instL ts (instT t (n + m)).2).1
        = shiftL n (NodeList.cons (instT t m).1 (instL ts (instT t m).2).1)
    rw [ht.1, ht.2, hts.1]
    rfl
  · show (instL ts (instT t (n + m)).2).2 = n + (instL ts (instT t m).2).2
    rw [ht.2, hts.2]
end

mutual
theorem inst_boundT : ∀ (t : TNode) (n : Nat),
    n ≤ (instT t n).2 ∧ ∀ r, r < n → sumET (refE r) (instT t n).1 = 0
| .mk te ts, n => by
  have h := inst_boundL ts (n + 1)
  constructor
  · show n ≤ (instL ts (n + 1)).2
    omega
  · intro r hr
    show refE r (mkElem n te) + sumEL (refE r) (instL ts (n + 1)).1 = 0
    have h1 : refE r (mkElem n te) = 0 := by
      simp [refE, mkElem]
      omega
    have h2 := h.2 r (by omega)
    omega
theorem inst_boundL : ∀ (f : TNodeList) (n : Nat),
    n ≤ (instL f n).2 ∧ ∀ r, r < n → sumEL (refE r) (instL f n).1 = 0
| .nil, n => ⟨Nat.le_refl n, fun r _ => rfl⟩
| .cons t ts, n => by
  have ht := inst_boundT t n
  have hts := inst_boundL ts (instT t n).2
  constructor
  · show n ≤ (instL ts (instT t n).2).2
    omega
  · intro r hr
    show sumET (refE r) (instT t n).1 + sumEL (refE r) (instL ts (instT t n).2).1 = 0
    have h1 := ht.2 r hr
    have h2 := hts.2 r (by omega)
    omega
end

/-! ## Occurrence counting and replacement lemmas -/

mutual
theorem sum_monoT (μ ν : Elem → Nat) (hμν : ∀ e, μ e ≤ ν e) :
    ∀ t : Node, sumET μ t ≤ sumET ν t
| .mk e cs => by
  have h := sum_monoL μ ν hμν cs
  show μ e + sumEL μ cs ≤ ν e + sumEL ν cs
  have := hμν e
  omega
theorem sum_monoL (μ ν : Elem → Nat) (hμν : ∀ e, μ e ≤ ν e) :
    ∀ f : NodeList, sumEL μ f ≤ sumEL ν f
| .nil => Nat.le_refl 0
| .cons t ts => by
  have h1 := sum_monoT μ ν hμν t
  have h2 := sum_monoL μ ν hμν ts
  show sumET μ t + sumEL μ ts ≤ sumET ν t + sumEL ν ts
  omega
end

mutual
theorem replace_idT (r : Nat) (cs : NodeList) :
    ∀ t : Node, sumET (refE r) t = 0 → replaceT r cs t = t
| .mk e kids => by
  intro h
  have h' : refE r e + sumEL (refE r) kids = 0 := h
  have he : ¬ e.ref = r := by
    intro hc
    simp [refE, hc] at h'
  have hk : sumEL (refE r) kids = 0 := by omega
  simp [replaceT, he, replace_idL r cs kids hk]
theorem replace_idL (r : Nat) (cs : NodeList) :
    ∀ f : NodeList, sumEL (refE r) f = 0 → replaceL r cs f = f
| .nil => fun _ => rfl
| .cons t ts => by
  intro h
  have h' : sumET (refE r) t + sumEL (refE r) ts = 0 := h
  have h1 : sumET (refE r) t = 0 := by omega
  have h2 : sumEL (refE r) ts = 0 := by omega
  simp [replaceL, replace_idT r cs t h1, replace_idL r cs ts h2]
end

mutual
theorem nodeOf_none_iffT (r : Nat) :
    ∀ t : Node, nodeOfT r t = none ↔ sumET (refE r) t = 0
| .mk e kids => by
  by_cases he : e.ref = r
  · simp [nodeOfT, he, sumET, refE]
  · simp [nodeOfT, he, sumET, refE, nodeOf_none_iffL r kids]
theorem nodeOf_none_iffL (r : Nat) :
    ∀ f : NodeList, nodeOfL r f = none ↔ sumEL (refE r) f = 0
| .nil => by simp [nodeOfL, sumEL]
| .cons t ts => by
  cases hn : nodeOfT r t with
  | some u =>
    have ht : ¬ sumET (refE r) t = 0 := by
      intro hz
      rw [(nodeOf_none_iffT r t).mpr hz] at hn
      cases hn
    simp [nodeOfL, hn, sumEL]
    omega
  | none =>
    have ht : sumET (refE r) t = 0 := (nodeOf_none_iffT r t).mp hn
    simp [nodeOfL, hn, sumEL, ht, nodeOf_none_iffL r ts]
end

mutual
theorem nodeOf_replaceT (r : Nat) (cs : NodeList) :
    ∀ (t : Node) (e : Elem) (old : NodeList), nodeOfT r t = some (.mk e old) →
      nodeOfT r (replaceT r cs t) = some (.mk e cs)
| .mk e' kids => by
  intro e old h
  by_cases he : e'.ref = r
  · simp [nodeOfT, he] at h
    obtain ⟨rfl, rfl⟩ := h
    simp [replaceT, he, nodeOfT]
  · simp [nodeOfT, he] at h
    simp [replaceT, he, nodeOfT, nodeOf_replaceL r cs kids e old h]
theorem nodeOf_replaceL (r : Nat) (cs : NodeList) :
    ∀ (f : NodeList) (e : Elem) (old : NodeList), nodeOfL r f = some (.mk e old) →
      nodeOfL r (replaceL r cs f) = some (.mk e cs)
| .nil => by intro e old h; cases h
| .cons t ts => by
  intro e old h
  cases hn : nodeOfT r t with
  | some u =>
    simp [nodeOfL, hn] at h
    subst h
    simp [replaceL, nodeOfL, nodeOf_replaceT r cs t e old hn]
  | none =>
    simp [nodeOfL, hn] at h
    have ht : sumET (refE r) t = 0 := (nodeOf_none_iffT r t).mp hn
    have hkeep : replaceT r cs t = t := replace_idT r cs t ht
    simp [replaceL, nodeOfL, hkeep, hn, nodeOf_replaceL r cs ts e old h]
end

mutual
theorem nodeOf_sum_leT (μ : Elem → Nat) (r : Nat) :
    ∀ (t u : Node), nodeOfT r t = some u → sumET μ u ≤ sumET μ t
| .mk e kids => by
  intro u h
  by_cases he : e.ref = r
  · simp [nodeOfT, he] at h
    subst h
    exact Nat.le_refl _
  · simp [nodeOfT, he] at h
    have := nodeOf_sum_leL μ r kids u h
    show sumET μ u ≤ μ e + sumEL μ kids
    omega
theorem nodeOf_sum_leL (μ : Elem → Nat) (r : Nat) :
    ∀ (f : NodeList) (u : Node), nodeOfL r f = some u → sumET μ u ≤ sumEL μ f
| .nil => by intro u h; cases h
| .cons t ts => by
  intro u h
  cases hn : nodeOfT r t with
  | some v =>
    simp [nodeOfL, hn] at h
    rw [h] at hn
    have := nodeOf_sum_leT μ r t u hn
    show sumET μ u ≤ sumET μ t + sumEL μ ts
    omega
  | none =>
    simp [nodeOfL, hn] at h
    have := nodeOf_sum_leL μ r ts u h
    show sumET μ u ≤ sumET μ t + sumEL μ ts
    omega
end

mutual
theorem find_sum_leT (μ : Elem → Nat) (s : String) :
    ∀ (t u : Node), findByIdT s t = some u → sumET μ u ≤ sumET μ t
| .mk e kids => by
  intro u h
  by_cases hid : e.idAttr = some s
  · simp [findByIdT, hid] at h
    subst h
    exact Nat.le_refl _
  · simp [findByIdT, hid] at h
    have := find_sum_leL μ s kids u h
    show sumET μ u ≤ μ e + sumEL μ kids
    omega
theorem find_sum_leL (μ : Elem → Nat) (s : String) :
    ∀ (f : NodeList) (u : Node), findByIdL s f = some u → sumET μ u ≤ sumEL μ f
| .nil => by intro u h; cases h
| .cons t ts => by
  intro u h
  cases hf : findByIdT s t with
  | some v =>
    simp [findByIdL, hf] at h
    rw [h] at hf
    have := find_sum_leT μ s t u hf
    show sumET μ u ≤ sumET μ t + sumEL μ ts
    omega
  | none =>
    simp [findByIdL, hf] at h
    have := find_sum_leL μ s ts u h
    show sumET μ u ≤ sumET μ t + sumEL μ ts
    omega
end

mutual
theorem find_idT (s : String) :
    ∀ (t u : Node), findByIdT s t = some u → (Node.elemOf u).idAttr = some s
| .mk e kids => by
  intro u h
  by_cases hid : e.idAttr = some s
  · simp [findByIdT, hid] at h
    subst h
    exact hid
  · simp [findByIdT, hid] at h
    exact find_idL s kids u h
theorem find_idL (s : String) :
    ∀ (f : NodeList) (u : Node), findByIdL s f = some u → (Node.elemOf u).idAttr = some s
| .nil => by intro u h; cases h
| .cons t ts => by
  intro u h
  cases hf : findByIdT s t with
  | some v =>
    simp [findByIdL, hf] at h
    rw [h] at hf
    exact find_idT s t u hf
  | none =>
    simp [findByIdL, hf] at h
    exact find_idL s ts u h
end

mutual
theorem find_refT (s : String) :
    ∀ (t u : Node), findByIdT s t = some u → 1 ≤ sumET (refE (Node.elemOf u).ref) t
| .mk e kids => by
  intro u h
  by_cases hid : e.idAttr = some s
  · simp [findByIdT, hid] at h
    subst h
    show 1 ≤ refE (Node.elemOf (Node.mk e kids)).ref e + sumEL (refE (Node.elemOf (Node.mk e kids)).ref) kids
    simp [Node.elemOf, refE]
  · simp [findByIdT, hid] at h
    have := find_refL s kids u h
    show 1 ≤ refE (Node.elemOf u).ref e + sumEL (refE (Node.elemOf u).ref) kids
    omega
theorem find_refL (s : String) :
    ∀ (f : NodeList) (u : Node), findByIdL s f = some u → 1 ≤ sumEL (refE (Node.elemOf u).ref) f
| .nil => by intro u h; cases h
| .cons t ts => by
  intro u h
  cases hf : findByIdT s t with
  | some v =>
    simp [findByIdL, hf] at h
    rw [h] at hf
    have := find_refT s t u hf
    show 1 ≤ sumET (refE (Node.elemOf u).ref) t + sumEL (refE (Node.elemOf u).ref) ts
    omega
  | none =>
    simp [findByIdL, hf] at h
    have := find_refL s ts u h
    show 1 ≤ sumET (refE (Node.elemOf u).ref) t + sumEL (refE (Node.elemOf u).ref) ts
    omega
end

mutual
theorem sum_replaceT (μ : Elem → Nat) (r : Nat) (cs : NodeList) :
    ∀ (t : Node) (e : Elem) (old : NodeList),
      sumET (refE r) t = 1 → nodeOfT r t = some (.mk e old) →
      sumET μ (replaceT r cs t) + sumEL μ old = sumET μ t + sumEL μ cs
| .mk e' kids => by
  intro e old h1 h2
  by_cases he : e'.ref = r
  · simp [nodeOfT, he] at h2
    obtain ⟨rfl, rfl⟩ := h2
    simp [replaceT, he, sumET]
    omega
  · simp [nodeOfT, he] at h2
    have h1' : sumEL (refE r) kids = 1 := by
      have hh : refE r e' + sumEL (refE r) kids = 1 := h1
      have hz : refE r e' = 0 := by simp [refE, he]
      omega
    have ih := sum_replaceL μ r cs kids e old h1' h2
    simp [replaceT, he, sumET]
    omega
theorem sum_replaceL (μ : Elem → Nat) (r : Nat) (cs : NodeList) :
    ∀ (f : NodeList) (e : Elem) (old : NodeList),
      sumEL (refE r) f = 1 → nodeOfL r f = some (.mk e old) →
      sumEL μ (replaceL r cs f) + sumEL μ old = sumEL μ f + sumEL μ cs
| .nil => by intro e old h1 h2; cases h2
| .cons t ts => by
  intro e old h1 h2
  have hsplit : sumET (refE r) t + sumEL (refE r) ts = 1 := h1
  cases hn : nodeOfT r t with
  | some u =>
    simp [nodeOfL, hn] at h2
    rw [h2] at hn
    have ht1 : sumET (refE r) t = 1 := by
      have hnz : ¬ sumET (refE r) t = 0 := by
        intro hz
        rw [(nodeOf_none_iffT r t).mpr hz] at hn
        cases hn
      omega
    have hts0 : sumEL (refE r) ts = 0 := by omega
    have ih := sum_replaceT μ r cs t e old ht1 hn
    have hkeep : replaceL r cs ts = ts := replace_idL r cs ts hts0
    simp [replaceL, sumEL, hkeep]
    omega
  | none =>
    simp [nodeOfL, hn] at h2
    have ht0 : sumET (refE r) t = 0 := (nodeOf_none_iffT r t).mp hn
    have hts1 : sumEL (refE r) ts = 1 := by omega
    have ih := sum_replaceL μ r cs ts e old hts1 h2
    have hkeep : replaceT r cs t = t := replace_idT r cs t ht0
    simp [replaceL, sumEL, hkeep]
    omega
end

mutual
theorem find_replaceT (s : String) (r : Nat) (cs : NodeList) :
    ∀ (t : Node) (e : Elem) (old : NodeList),
      sumET (refE r) t = 1 → findByIdT s t = some (.mk e old) → e.ref = r →
      findByIdT s (replaceT r cs t) = some (.mk e cs)
| .mk e' kids => by
  intro e old h1 h2 h3
  by_cases hid : e'.idAttr = some s
  · simp [findByIdT, hid] at h2
    obtain ⟨rfl, rfl⟩ := h2
    simp [replaceT, h3, findByIdT, hid]
  · simp [findByIdT, hid] at h2
    by_cases he : e'.ref = r
    · exfalso
      have hge := find_refL s kids (Node.mk e old) h2
      have hrw : (Node.elemOf (Node.mk e old)).ref = r := h3
      rw [hrw] at hge
      have hh : refE r e' + sumEL (refE r) kids = 1 := h1
      have hone : refE r e' = 1 := by simp [refE, he]
      omega
    · have h1' : sumEL (refE r) kids = 1 := by
        have hh : refE r e' + sumEL (refE r) kids = 1 := h1
        have hz : refE r e' = 0 := by simp [refE, he]
        omega
      simp [replaceT, he, findByIdT, hid, find_replaceL s r cs kids e old h1' h2 h3]
theorem find_replaceL (s : String) (r : Nat) (cs : NodeList) :
    ∀ (f : NodeList) (e : Elem) (old : NodeList),
      sumEL (refE r) f = 1 → findByIdL s f = some (.mk e old) → e.ref = r →
      findByIdL s (replaceL r cs f) = some (.mk e cs)
| .nil => by intro e old h1 h2 h3; cases h2
| .cons t ts => by
  intro e old h1 h2 h3
  have hsplit : sumET (refE r) t + sumEL (refE r) ts = 1 := h1
  cases hf : findByIdT s t with
  | some u =>
    simp [findByIdL, hf] at h2
    rw [h2] at hf
    have hge := find_refT s t (Node.mk e old) hf
    have hrw : (Node.elemOf (Node.mk e old)).ref = r := h3
    rw [hrw] at hge
    have ht1 : sumET (refE r) t = 1 := by omega
    have ih := find_replaceT s r cs t e old ht1 hf h3
    simp [replaceL, findByIdL, ih]
  | none =>
    simp [findByIdL, hf] at h2
    have hge := find_refL s ts (Node.mk e old) h2
    have hrw : (Node.elemOf (Node.mk e old)).ref = r := h3
    rw [hrw] at hge
    have hts1 : sumEL (refE r) ts = 1 := by omega
    have ht0 : sumET (refE r) t = 0 := by omega
    have hkeep : replaceT r cs t = t := replace_idT r cs t ht0
    simp [replaceL, findByIdL, hkeep, hf, find_replaceL s r cs ts e old hts1 h2 h3]
end

mutual
theorem idSum_none_findT (s : String) :
    ∀ t : Node, sumET (idE s) t = 0 → findByIdT s t = none
| .mk e kids => by
  intro h
  have hh : idE s e + sumEL (idE s) kids = 0 := h
  have hid : ¬ e.idAttr = some s := by
    intro hc
    simp [idE, hc] at hh
  have hk : sumEL (idE s) kids = 0 := by omega
  simp [findByIdT, hid, idSum_none_findL s kids hk]
theorem idSum_none_findL (s : String) :
    ∀ f : NodeList, sumEL (idE s) f = 0 → findByIdL s f = none
| .nil => fun _ => rfl
| .cons t ts => by
  intro h
  have hh : sumET (idE s) t + sumEL (idE s) ts = 0 := h
  have h1 : sumET (idE s) t = 0 := by omega
  have h2 : sumEL (idE s) ts = 0 := by omega
  simp [findByIdL, idSum_none_findT s t h1, idSum_none_findL s ts h2]
end

mutual
theorem find_intoT (s : String) (r : Nat) (cs : NodeList) :
    ∀ (t : Node) (e : Elem) (old : NodeList),
      sumET (refE r) t = 1 → nodeOfT r t = some (.mk e old) → ¬ e.idAttr = some s →
      sumET (idE s) t = sumEL (idE s) old →
      findByIdT s (replaceT r cs t) = findByIdL s cs
| .mk e' kids => by
  intro e old h1 h2 h3 h4
  by_cases he : e'.ref = r
  · simp [nodeOfT, he] at h2
    obtain ⟨rfl, rfl⟩ := h2
    simp [replaceT, he, findByIdT, h3]
  · simp [nodeOfT, he] at h2
    have hle := nodeOf_sum_leL (idE s) r kids (Node.mk e old) h2
    have hle' : idE s e + sumEL (idE s) old ≤ sumEL (idE s) kids := hle
    have h4' : idE s e' + sumEL (idE s) kids = sumEL (idE s) old := h4
    have hz : idE s e' = 0 := by omega
    have hid : ¬ e'.idAttr = some s := by
      intro hc
      simp [idE, hc] at hz
    have h4k : sumEL (idE s) kids = sumEL (idE s) old := by omega
    have h1' : sumEL (refE r) kids = 1 := by
      have hh : refE r e' + sumEL (refE r) kids = 1 := h1
      have hz' : refE r e' = 0 := by simp [refE, he]
      omega
    simp [replaceT, he, findByIdT, hid,
      find_intoL s r cs kids e old h1' h2 h3 h4k]
theorem find_intoL (s : String) (r : Nat) (cs : NodeList) :
    ∀ (f : NodeList) (e : Elem) (old : NodeList),
      sumEL (refE r) f = 1 → nodeOfL r f = some (.mk e old) → ¬ e.idAttr = some s →
      sumEL (idE s) f = sumEL (idE s) old →
      findByIdL s (replaceL r cs f) = findByIdL s cs
| .nil => by intro e old h1 h2; cases h2
| .cons t ts => by
  intro e old h1 h2 h3 h4
  have hsplit : sumET (refE r) t + sumEL (refE r) ts = 1 := h1
  have h4' : sumET (idE s) t + sumEL (idE s) ts = sumEL (idE s) old := h4
  cases hn : nodeOfT r t with
  | some u =>
    simp [nodeOfL, hn] at h2
    rw [h2] at hn
    have ht1 : sumET (refE r) t = 1 := by
      have hnz : ¬ sumET (refE r) t = 0 := by
        intro hz
        rw [(nodeOf_none_iffT r t).mpr hz] at hn
        cases hn
      omega
    have hts0 : sumEL (refE r) ts = 0 := by omega
    have hle := nodeOf_sum_leT (idE s) r t (Node.mk e old) hn
    have hle' : idE s e + sumEL (idE s) old ≤ sumET (idE s) t := hle
    have hts_id : sumEL (idE s) ts = 0 := by omega
    have hT_id : sumET (idE s) t = sumEL (idE s) old := by omega
    have ih := find_intoT s r cs t e old ht1 hn h3 hT_id
    have hkeep : replaceL r cs ts = ts := replace_idL r cs ts hts0
    have hts_none : findByIdL s ts = none := idSum_none_findL s ts hts_id
    cases hc : findByIdL s cs with
    | some u' => simp [replaceL, findByIdL, ih, hc]
    | none => simp [replaceL, findByIdL, ih, hc, hkeep, hts_none]
  | none =>
    simp [nodeOfL, hn] at h2
    have ht0 : sumET (refE r) t = 0 := (nodeOf_none_iffT r t).mp hn
    have hts1 : sumEL (refE r) ts = 1 := by omega
    have hle := nodeOf_sum_leL (idE s) r ts (Node.mk e old) h2
    have hle' : idE s e + sumEL (idE s) old ≤ sumEL (idE s) ts := hle
    have hT_id : sumET (idE s) t = 0 := by omega
    have hts_id : sumEL (idE s) ts = sumEL (idE s) old := by omega
    have hkeep : replaceT r cs t = t := replace_idT r cs t ht0
    have ht_none : findByIdT s t = none := idSum_none_findT s t hT_id
    simp [replaceL, findByIdL, hkeep, ht_none,
      find_intoL s r cs ts e old hts1 h2 h3 hts_id]
end

mutual
theorem idSum_none_selT :
    ∀ t : Node, sumET (idE "mobileMenu") t = 0 → selLinksT t = []
| .mk e kids => by
  intro h
  have hh : idE "mobileMenu" e + sumEL (idE "mobileMenu") kids = 0 := h
  have hid : ¬ e.idAttr = some "mobileMenu" := by
    intro hc
    simp [idE, hc] at hh
  have hk : sumEL (idE "mobileMenu") kids = 0 := by omega
  simp [selLinksT, hid, idSum_none_selL kids hk]
theorem idSum_none_selL :
    ∀ f : NodeList, sumEL (idE "mobileMenu") f = 0 → selLinksL f = []
| .nil => fun _ => rfl
| .cons t ts => by
  intro h
  have hh : sumET (idE "mobileMenu") t + sumEL (idE "mobileMenu") ts = 0 := h
  have h1 : sumET (idE "mobileMenu") t = 0 := by omega
  have h2 : sumEL (idE "mobileMenu") ts = 0 := by omega
  simp [selLinksL, idSum_none_selT t h1, idSum_none_selL ts h2]
end

mutual
theorem sel_intoT (r : Nat) (cs : NodeList) :
    ∀ (t : Node) (e : Elem) (old : NodeList),
      sumET (refE r) t = 1 → nodeOfT r t = some (.mk e old) →
      ¬ e.idAttr = some "mobileMenu" →
      sumET (idE "mobileMenu") t = sumEL (idE "mobileMenu") old →
      selLinksT (replaceT r cs t) = selLinksL cs
| .mk e' kids => by
  intro e old h1 h2 h3 h4
  by_cases he : e'.ref = r
  · simp [nodeOfT, he] at h2
    obtain ⟨rfl, rfl⟩ := h2
    simp [replaceT, he, selLinksT, h3]
  · simp [nodeOfT, he] at h2
    have hle := nodeOf_sum_leL (idE "mobileMenu") r kids (Node.mk e old) h2
    have hle' : idE "mobileMenu" e + sumEL (idE "mobileMenu") old
        ≤ sumEL (idE "mobileMenu") kids := hle
    have h4' : idE "mobileMenu" e' + sumEL (idE "mobileMenu") kids
        = sumEL (idE "mobileMenu") old := h4
    have hz : idE "mobileMenu" e' = 0 := by omega
    have hid : ¬ e'.idAttr = some "mobileMenu" := by
      intro hc
      simp [idE, hc] at hz
    have h4k : sumEL (idE "mobileMenu") kids = sumEL (idE "mobileMenu") old := by omega
    have h1' : sumEL (refE r) kids = 1 := by
      have hh : refE r e' + sumEL (refE r) kids = 1 := h1
      have hz' : refE r e' = 0 := by simp [refE, he]
      omega
    simp [replaceT, he, selLinksT, hid, sel_intoL r cs kids e old h1' h2 h3 h4k]
theorem sel_intoL (r : Nat) (cs : NodeList) :
    ∀ (f : NodeList) (e : Elem) (old : NodeList),
      sumEL (refE r) f = 1 → nodeOfL r f = some (.mk e old) →
      ¬ e.idAttr = some "mobileMenu" →
      sumEL (idE "mobileMenu") f = sumEL (idE "mobileMenu") old →
      selLinksL (replaceL r cs f) = selLinksL cs
| .nil => by intro e old h1 h2; cases h2
| .cons t ts => by
  intro e old h1 h2 h3 h4
  have hsplit : sumET (refE r) t + sumEL (refE r) ts = 1 := h1
  have h4' : sumET (idE "mobileMenu") t + sumEL (idE "mobileMenu") ts
      = sumEL (idE "mobileMenu") old := h4
  cases hn : nodeOfT r t with
  | some u =>
    simp [nodeOfL, hn] at h2
    rw [h2] at hn
    have ht1 : sumET (refE r) t = 1 := by
      have hnz : ¬ sumET (refE r) t = 0 := by
        intro hz
        rw [(nodeOf_none_iffT r t).mpr hz] at hn
        cases hn
      omega
    have hts0 : sumEL (refE r) ts = 0 := by omega
    have hle := nodeOf_sum_leT (idE "mobileMenu") r t (Node.mk e old) hn
    have hle' : idE "mobileMenu" e + sumEL (idE "mobileMenu") old
        ≤ sumET (idE "mobileMenu") t := hle
    have hts_id : sumEL (idE "mobileMenu") ts = 0 := by omega
    have hT_id : sumET (idE "mobileMenu") t = sumEL (idE "mobileMenu") old := by omega
    have ih := sel_intoT r cs t e old ht1 hn h3 hT_id
    have hkeep : replaceL r cs ts = ts := replace_idL r cs ts hts0
    have hts_nil : selLinksL ts = [] := idSum_none_selL ts hts_id
    simp [replaceL, selLinksL, ih, hkeep, hts_nil]
  | none =>
    simp [nodeOfL, hn] at h2
    have ht0 : sumET (refE r) t = 0 := (nodeOf_none_iffT r t).mp hn
    have hts1 : sumEL (refE r) ts = 1 := by omega
    have hle := nodeOf_sum_leL (idE "mobileMenu") r ts (Node.mk e old) h2
    have hle' : idE "mobileMenu" e + sumEL (idE "mobileMenu") old
        ≤ sumEL (idE "mobileMenu") ts := hle
    have hT_id : sumET (idE "mobileMenu") t = 0 := by omega
    have hts_id : sumEL (idE "mobileMenu") ts = sumEL (idE "mobileMenu") old := by omega
    have hkeep : replaceT r cs t = t := replace_idT r cs t ht0
    have ht_nil : selLinksT t = [] := idSum_none_selT t hT_id
    simp [replaceL, selLinksL, hkeep, ht_nil, sel_intoL r cs ts e old hts1 h2 h3 hts_id]
end

/-! ## Class update lemmas -/

mutual
theorem find_updClT (s : String) (r : Nat) (g : List String → List String) :
    ∀ t : Node, findByIdT s (updClT r g t) = (findByIdT s t).map (updClT r g)
| .mk e kids => by
  by_cases hid : e.idAttr = some s
  · by_cases he : e.ref = r
    · simp [updClT, findByIdT, hid, he]
    · simp [updClT, findByIdT, hid, he]
  · by_cases he : e.ref = r
    · simp [updClT, findByIdT, hid, he, find_updClL s r g kids]
    · simp [updClT, findByIdT, hid, he, find_updClL s r g kids]
theorem find_updClL (s : String) (r : Nat) (g : List String → List String) :
    ∀ f : NodeList, findByIdL s (updClL r g f) = (findByIdL s f).map (updClT r g)
| .nil => rfl
| .cons t ts => by
  cases hf : findByIdT s t with
  | some u => simp [updClL, findByIdL, find_updClT s r g t, hf]
  | none => simp [updClL, findByIdL, find_updClT s r g t, hf, find_updClL s r g ts]
end

mutual
theorem updCl_compT (r : Nat) (g h : List String → List String) :
    ∀ t : Node, updClT r g (updClT r h t) = updClT r (fun c => g (h c)) t
| .mk e kids => by
  by_cases he : e.ref = r
  · simp [updClT, he, updCl_compL r g h kids]
  · simp [updClT, he, updCl_compL r g h kids]
theorem updCl_compL (r : Nat) (g h : List String → List String) :
    ∀ f : NodeList, updClL r g (updClL r h f) = updClL r (fun c => g (h c)) f
| .nil => rfl
| .cons t ts => by
  simp [updClL, updCl_compT r g h t, updCl_compL r g h ts]
end

mutual
theorem updCl_idT (r : Nat) : ∀ t : Node, updClT r (fun c => c) t = t
| .mk e kids => by
  show Node.mk (if e.ref = r then { e with classes := e.classes } else e)
      (updClL r (fun c => c) kids) = Node.mk e kids
  rw [updCl_idL r kids]
  congr 1
  split <;> rfl
theorem updCl_idL (r : Nat) : ∀ f : NodeList, updClL r (fun c => c) f = f
| .nil => rfl
| .cons t ts => by
  simp [updClL, updCl_idT r t, updCl_idL r ts]
end

mutual
theorem find_nodeOfT (s : String) (r : Nat) :
    ∀ (t u : Node), sumET (refE r) t = 1 → findByIdT s t = some u →
      (Node.elemOf u).ref = r → nodeOfT r t = some u
| .mk e kids => by
  intro u h1 h2 h3
  by_cases hid : e.idAttr = some s
  · simp [findByIdT, hid] at h2
    rw [← h2] at h3 ⊢
    have he : e.ref = r := h3
    simp [nodeOfT, he]
  · simp [findByIdT, hid] at h2
    by_cases he : e.ref = r
    · exfalso
      have hge := find_refL s kids u h2
      rw [h3] at hge
      have hh : refE r e + sumEL (refE r) kids = 1 := h1
      have hone : refE r e = 1 := by simp [refE, he]
      omega
    · have h1' : sumEL (refE r) kids = 1 := by
        have hh : refE r e + sumEL (refE r) kids = 1 := h1
        have hz : refE r e = 0 := by simp [refE, he]
        omega
      simp [nodeOfT, he, find_nodeOfL s r kids u h1' h2 h3]
theorem find_nodeOfL (s : String) (r : Nat) :
    ∀ (f : NodeList) (u : Node), sumEL (refE r) f = 1 → findByIdL s f = some u →
      (Node.elemOf u).ref = r → nodeOfL r f = some u
| .nil => by intro u h1 h2; cases h2
| .cons t ts => by
  intro u h1 h2 h3
  have hsplit : sumET (refE r) t + sumEL (refE r) ts = 1 := h1
  cases hf : findByIdT s t with
  | some v =>
    simp [findByIdL, hf] at h2
    rw [h2] at hf
    have hge := find_refT s t u hf
    rw [h3] at hge
    have ht1 : sumET (refE r) t = 1 := by omega
    simp [nodeOfL, find_nodeOfT s r t u ht1 hf h3]
  | none =>
    simp [findByIdL, hf] at h2
    have hge := find_refL s ts u h2
    rw [h3] at hge
    have hts1 : sumEL (refE r) ts = 1 := by omega
    have ht0 : sumET (refE r) t = 0 := by omega
    have hnone : nodeOfT r t = none := (nodeOf_none_iffT r t).mpr ht0
    simp [nodeOfL, hnone, find_nodeOfL s r ts u hts1 h2 h3]
end

mutual
theorem replace_collapseT (r : Nat) (cs : NodeList) :
    ∀ t : Node, replaceT r .nil (replaceT r cs t) = replaceT r .nil t
| .mk e kids => by
  by_cases he : e.ref = r
  · simp [replaceT, he]
  · simp [replaceT, he, replace_collapseL r cs kids]
theorem replace_collapseL (r : Nat) (cs : NodeList) :
    ∀ f : NodeList, replaceL r .nil (replaceL r cs f) = replaceL r .nil f
| .nil => rfl
| .cons t ts => by
  simp [replaceL, replace_collapseT r cs t, replace_collapseL r cs ts]
end

/-! ## Document level helpers and lemmas -/

/-- The contents of the element with identity r, empty when absent. -/
def kidsOf (d : Dom) (r : Nat) : NodeList :=
  match nodeOfL r d.root with
  | some t => Node.kids t
  | none => .nil

/-- A measure summed over the subtree rooted at the element with
identity r, zero when absent. -/
def subtreeSum (μ : Elem → Nat) (d : Dom) (r : Nat) : Nat :=
  match nodeOfL r d.root with
  | some t => sumET μ t
  | none => 0

theorem shiftT_ref (k : Nat) (t : Node) :
    (Node.elemOf (shiftT k t)).ref = k + (Node.elemOf t).ref := by
  cases t; rfl

theorem shiftT_classes (k : Nat) (t : Node) :
    (Node.elemOf (shiftT k t)).classes = (Node.elemOf t).classes := by
  cases t; rfl

theorem map_shift_ref (o : Option Node) (k v : Nat)
    (h : o.map (fun t => (Node.elemOf t).ref) = some v) :
    (o.map (shiftT k)).map (fun t => (Node.elemOf t).ref) = some (k + v) := by
  cases o with
  | none => cases h
  | some u =>
    simp at h
    simp [shiftT_ref, h]
theorem map_shift_classes (o : Option Node) (k : Nat) (v : List String)
    (h : o.map (fun t => (Node.elemOf t).classes) = some v) :
    (o.map (shiftT k)).map (fun t => (Node.elemOf t).classes) = some v := by
  cases o with
  | none => cases h
  | some u =>
    simp at h
    simp [shiftT_classes, h]

theorem addLink_spec (mm : Nat) : ∀ (links : List Nat) (d : Dom),
    addLinkCloseHandlers links mm d
      = { d with handlers := d.handlers ++ links.map (fun l => (l, HAction.addHidden mm)) }
| [], d => by simp [addLinkCloseHandlers]
| l :: ls, d => by
  show addLinkCloseHandlers ls mm (addListener d l (.addHidden mm)) = _
  rw [addLink_spec mm ls (addListener d l (.addHidden mm))]
  simp [addListener]

theorem instL_hdr (n : Nat) :
    (instL hdrFrag n).1 = shiftL n (instL hdrFrag 0).1 ∧ (instL hdrFrag n).2 = n + 13 := by
  have h := inst_shiftL hdrFrag n 0
  have h2 : (instL hdrFrag n).2 = n + (instL hdrFrag 0).2 := h.2
  exact ⟨h.1, by rw [h2]; rfl⟩

theorem instL_ftr (n : Nat) :
    (instL ftrFrag n).1 = shiftL n (instL ftrFrag 0).1 ∧ (instL ftrFrag n).2 = n + 3 := by
  have h := inst_shiftL ftrFrag n 0
  have h2 : (instL ftrFrag n).2 = n + (instL ftrFrag 0).2 := h.2
  exact ⟨h.1, by rw [h2]; rfl⟩

theorem hdr_mb0 :
    (findByIdL "menuBtn" (instL hdrFrag 0).1).map (fun t => (Node.elemOf t).ref)
      = some 7 := by decide

theorem hdr_mm0 :
    (findByIdL "mobileMenu" (instL hdrFrag 0).1).map (fun t => (Node.elemOf t).ref)
      = some 9 := by decide

/-- The class attribute of the freshly parsed mobile panel element. -/
def navCls : List String :=
  ["hidden", "bg-white", "dark:bg-gray-800", "border-t", "border-gray-200",
   "dark:border-gray-700"]

theorem hdr_mm0_classes :
    (findByIdL "mobileMenu" (instL hdrFrag 0).1).map (fun t => (Node.elemOf t).classes)
      = some navCls := by decide

theorem hdr_sel0 : selLinksL (instL hdrFrag 0).1 = [11, 12] := by decide

theorem hdr_tog0 : sumEL togE (instL hdrFrag 0).1 = 1 := by decide

theorem hdr_pan0 : sumEL (idE "mobileMenu") (instL hdrFrag 0).1 = 1 := by decide

theorem hdr_brand0 : countBrandL (instL hdrFrag 0).1 = 1 := by decide

theorem ftr_text0 : sumEL (textE copyTxt) (instL ftrFrag 0).1 = 1 := by decide

/-! ## Menu visibility lemmas -/

theorem mem_toggleCls (c : List String) : "hidden" ∈ toggleCls c ↔ ¬ "hidden" ∈ c := by
  unfold toggleCls
  by_cases h : "hidden" ∈ c
  · simp [h, List.mem_filter]
  · simp [h]

theorem mem_addCls (c : List String) : "hidden" ∈ addCls c := by
  unfold addCls
  by_cases h : "hidden" ∈ c <;> simp [h]

theorem toggle_iterate_mem (c : List String) :
    ∀ k : Nat, ("hidden" ∈ toggleCls^[k] c ↔ ("hidden" ∈ c ↔ k % 2 = 0))
| 0 => by simp
| k + 1 => by
  rw [Function.iterate_succ_apply', mem_toggleCls, toggle_iterate_mem c k]
  by_cases hm : k % 2 = 0
  · have h1 : (k + 1) % 2 = 1 := by omega
    simp [hm, h1]
  · have h0 : k % 2 = 1 := by omega
    have h1 : (k + 1) % 2 = 0 := by omega
    simp [h0, h1]

/-- The exact shape the element of a node takes under a class update. -/
theorem updClT_elem (r : Nat) (g : List String → List String) (t : Node) :
    Node.elemOf (updClT r g t)
      = if (Node.elemOf t).ref = r
        then { Node.elemOf t with classes := g (Node.elemOf t).classes }
        else Node.elemOf t := by
  cases t; rfl

/-- The three listener registrations performed by one loadHeader run on a
clean document whose fragment was allocated at base identity n. -/
def trio (n : Nat) : List (Nat × HAction) :=
  [(n + 7, .toggleHidden (n + 9)),
   (n + 11, .addHidden (n + 9)),
   (n + 12, .addHidden (n + 9))]

/-- The document state produced by loadHeader on a well formed host page
whose placeholder has identity r. -/
def hdrMounted (d : Dom) (r : Nat) : Dom :=
  { root := replaceL r (instL hdrFrag d.nextRef).1 d.root,
    handlers := d.handlers ++ trio d.nextRef,
    nextRef := d.nextRef + 13 }

theorem click_mounted_mb (hs : List (Nat × HAction)) (n : Nat) (R : NodeList) (N : Nat)
    (hH : ∀ p ∈ hs, p.1 < n) :
    click { root := R, handlers := hs ++ trio n, nextRef := N } (n + 7)
      = { root := updClL (n + 9) toggleCls R, handlers := hs ++ trio n, nextRef := N } := by
  have hnil : hs.filter (fun p => decide (p.1 = n + 7)) = [] := by
    rw [List.filter_eq_nil_iff]
    intro p hp
    have := hH p hp
    simp
    omega
  show ((((hs ++ trio n).filter (fun p => decide (p.1 = n + 7))).map Prod.snd).foldl
      applyAction _) = _
  rw [List.filter_append, hnil]
  have htrio : (trio n).filter (fun p => decide (p.1 = n + 7))
      = [(n + 7, HAction.toggleHidden (n + 9))] := by
    simp [trio, List.filter_cons, Nat.add_left_cancel_iff]
  rw [htrio]
  simp [applyAction]

theorem click_mounted_link (hs : List (Nat × HAction)) (n : Nat) (R : NodeList) (N : Nat)
    (hH : ∀ p ∈ hs, p.1 < n) (l : Nat) (hl : l = n + 11 ∨ l = n + 12) :
    click { root := R, handlers := hs ++ trio n, nextRef := N } l
      = { root := updClL (n + 9) addCls R, handlers := hs ++ trio n, nextRef := N } := by
  have hnil : hs.filter (fun p => decide (p.1 = l)) = [] := by
    rw [List.filter_eq_nil_iff]
    intro p hp
    have := hH p hp
    simp
    omega
  show ((((hs ++ trio n).filter (fun p => decide (p.1 = l))).map Prod.snd).foldl
      applyAction _) = _
  rw [List.filter_append, hnil]
  rcases hl with hl | hl
  · subst hl
    have htrio : (trio n).filter (fun p => decide (p.1 = n + 11))
        = [(n + 11, HAction.addHidden (n + 9))] := by
      simp [trio, List.filter_cons, Nat.add_left_cancel_iff]
    rw [htrio]
    simp [applyAction]
  · subst hl
    have htrio : (trio n).filter (fun p => decide (p.1 = n + 12))
        = [(n + 12, HAction.addHidden (n + 9))] := by
      simp [trio, List.filter_cons, Nat.add_left_cancel_iff]
    rw [htrio]
    simp [applyAction]

theorem click_mounted2_mb (hs : List (Nat × HAction)) (n : Nat) (R : NodeList) (N : Nat)
    (hH : ∀ p ∈ hs, p.1 < n) :
    click { root := R, handlers := hs ++ trio n ++ trio (n + 13), nextRef := N } (n + 13 + 7)
      = { root := updClL (n + 13 + 9) toggleCls R,
          handlers := hs ++ trio n ++ trio (n + 13), nextRef := N } := by
  have hnil : hs.filter (fun p => decide (p.1 = n + 13 + 7)) = [] := by
    rw [List.filter_eq_nil_iff]
    intro p hp
    have := hH p hp
    simp
    omega
  have hnil1 : (trio n).filter (fun p => decide (p.1 = n + 13 + 7)) = [] := by
    simp [trio]
  have htrio : (trio (n + 13)).filter (fun p => decide (p.1 = n + 13 + 7))
      = [(n + 13 + 7, HAction.toggleHidden (n + 13 + 9))] := by
    simp [trio, List.filter_cons, Nat.add_left_cancel_iff]
  show ((((hs ++ trio n ++ trio (n + 13)).filter
      (fun p => decide (p.1 = n + 13 + 7))).map Prod.snd).foldl applyAction _) = _
  rw [List.filter_append, List.filter_append, hnil, hnil1, htrio]
  simp [applyAction]

theorem loadFooter_some (d : Dom) (r : Nat)
    (h : getElementById d "footer-container" = some r) :
    loadFooter d = setInnerHTML d r ftrFrag := by
  unfold loadFooter
  rw [h]

theorem loadFooter_none_eq (d : Dom)
    (h : getElementById d "footer-container" = none) :
    loadFooter d = d := by
  unfold loadFooter
  rw [h]

theorem loadFooter_handlers (d : Dom) : (loadFooter d).handlers = d.handlers := by
  unfold loadFooter
  cases h : getElementById d "footer-container" with
  | none => rfl
  | some fc => simp [setInnerHTML]

theorem loadHeader_present (d : Dom) (r : Nat)
    (h : getElementById d "header-container" = some r) :
    loadHeader d = wireHeader (setInnerHTML d r hdrFrag) := by
  unfold loadHeader
  rw [h]

theorem wireHeader_frame (d1 : Dom) :
    (wireHeader d1).root = d1.root ∧ (wireHeader d1).nextRef = d1.nextRef := by
  unfold wireHeader
  cases hmb : getElementById d1 "menuBtn" with
  | none => exact ⟨rfl, rfl⟩
  | some mb =>
    cases hmm : getElementById d1 "mobileMenu" with
    | none => exact ⟨rfl, rfl⟩
    | some mm =>
      dsimp only
      rw [addLink_spec]
      simp [addListener]

theorem wireHeader_some (d1 : Dom) (mb mm : Nat)
    (hmb : getElementById d1 "menuBtn" = some mb)
    (hmm : getElementById d1 "mobileMenu" = some mm) :
    wireHeader d1 = { d1 with handlers := d1.handlers
      ++ (mb, HAction.toggleHidden mm)
        :: (selLinksL d1.root).map (fun l => (l, HAction.addHidden mm)) } := by
  unfold wireHeader
  rw [hmb, hmm]
  dsimp only
  rw [addLink_spec]
  simp [addListener]

theorem loadHeader_root (d : Dom) (r : Nat)
    (h : getElementById d "header-container" = some r) :
    (loadHeader d).root = replaceL r (instL hdrFrag d.nextRef).1 d.root
    ∧ (loadHeader d).nextRef = (instL hdrFrag d.nextRef).2 := by
  rw [loadHeader_present d r h]
  have hw := wireHeader_frame (setInnerHTML d r hdrFrag)
  rw [hw.1, hw.2]
  exact ⟨rfl, rfl⟩

theorem menuHidden_of_root (X : Dom) (R : NodeList) (hroot : X.root = R) :
    menuHidden X
      = (match findByIdL "mobileMenu" R with
         | some t => decide ("hidden" ∈ (Node.elemOf t).classes)
         | none => true) := by
  unfold menuHidden
  rw [hroot]

theorem mounted_all (d : Dom) (r : Nat) (e : Elem) (old : NodeList)
    (hf : findByIdL "header-container" d.root = some (.mk e old))
    (hr : e.ref = r)
    (hrc : sumEL (refE r) d.root = 1)
    (hmb : sumEL (idE "menuBtn") d.root = sumEL (idE "menuBtn") old)
    (hmm : sumEL (idE "mobileMenu") d.root = sumEL (idE "mobileMenu") old) :
    loadHeader d = hdrMounted d r
    ∧ getElementById (loadHeader d) "menuBtn" = some (d.nextRef + 7)
    ∧ (∀ g : List String → List String,
        menuHidden { hdrMounted d r with
            root := updClL (d.nextRef + 9) g (hdrMounted d r).root }
          = decide ("hidden" ∈ g navCls))
    ∧ menuHidden (loadHeader d) = true
    ∧ selLinksL (loadHeader d).root = [d.nextRef + 11, d.nextRef + 12] := by
  have hgid : getElementById d "header-container" = some r := by
    simp [getElementById, hf, Node.elemOf, hr]
  have hid : e.idAttr = some "header-container" := by
    have := find_idL "header-container" d.root (Node.mk e old) hf
    simpa [Node.elemOf] using this
  have hne_mb : ¬ e.idAttr = some "menuBtn" := by rw [hid]; simp
  have hne_mm : ¬ e.idAttr = some "mobileMenu" := by rw [hid]; simp
  have hnode : nodeOfL r d.root = some (.mk e old) :=
    find_nodeOfL "header-container" r d.root (Node.mk e old) hrc hf hr
  have hshift := instL_hdr d.nextRef
  have hfind_mb : findByIdL "menuBtn" (replaceL r (instL hdrFrag d.nextRef).1 d.root)
      = findByIdL "menuBtn" (instL hdrFrag d.nextRef).1 :=
    find_intoL "menuBtn" r (instL hdrFrag d.nextRef).1 d.root e old hrc hnode hne_mb hmb
  have hfind_mm : findByIdL "mobileMenu" (replaceL r (instL hdrFrag d.nextRef).1 d.root)
      = findByIdL "mobileMenu" (instL hdrFrag d.nextRef).1 :=
    find_intoL "mobileMenu" r (instL hdrFrag d.nextRef).1 d.root e old hrc hnode hne_mm hmm
  have hmb_ref : (findByIdL "menuBtn" (instL hdrFrag d.nextRef).1).map
      (fun t => (Node.elemOf t).ref) = some (d.nextRef + 7) := by
    rw [hshift.1, find_shiftL]
    exact map_shift_ref _ _ _ hdr_mb0
  have hmm_ref : (findByIdL "mobileMenu" (instL hdrFrag d.nextRef).1).map
      (fun t => (Node.elemOf t).ref) = some (d.nextRef + 9) := by
    rw [hshift.1, find_shiftL]
    exact map_shift_ref _ _ _ hdr_mm0
  have hmm_cls : (findByIdL "mobileMenu" (instL hdrFrag d.nextRef).1).map
      (fun t => (Node.elemOf t).classes) = some navCls := by
    rw [hshift.1, find_shiftL]
    exact map_shift_classes _ _ _ hdr_mm0_classes
  have hmb_gid : getElementById (setInnerHTML d r hdrFrag) "menuBtn"
      = some (d.nextRef + 7) := by
    simp only [getElementById, setInnerHTML]
    rw [hfind_mb]
    exact hmb_ref
  have hmm_gid : getElementById (setInnerHTML d r hdrFrag) "mobileMenu"
      = some (d.nextRef + 9) := by
    simp only [getElementById, setInnerHTML]
    rw [hfind_mm]
    exact hmm_ref
  have hsel : selLinksL (replaceL r (instL hdrFrag d.nextRef).1 d.root)
      = [d.nextRef + 11, d.nextRef + 12] := by
    rw [sel_intoL r (instL hdrFrag d.nextRef).1 d.root e old hrc hnode hne_mm hmm,
      hshift.1, sel_shiftL, hdr_sel0]
    rfl
  have hsel' : selLinksL (setInnerHTML d r hdrFrag).root
      = [d.nextRef + 11, d.nextRef + 12] := hsel
  have hchar : loadHeader d = hdrMounted d r := by
    rw [loadHeader_present d r hgid,
      wireHeader_some (setInnerHTML d r hdrFrag) _ _ hmb_gid hmm_gid, hsel']
    simp only [setInnerHTML, hdrMounted, trio]
    rw [hshift.2]
    simp
  refine ⟨hchar, ?_, ?_, ?_, ?_⟩
  · rw [hchar]
    show ((findByIdL "menuBtn" (hdrMounted d r).root).map
      (fun t => (Node.elemOf t).ref)) = some (d.nextRef + 7)
    have hroot : (hdrMounted d r).root
        = replaceL r (instL hdrFrag d.nextRef).1 d.root := rfl
    rw [hroot, hfind_mb]
    exact hmb_ref
  · intro g
    rw [menuHidden_of_root _
      (updClL (d.nextRef + 9) g (replaceL r (instL hdrFrag d.nextRef).1 d.root)) rfl]
    rw [find_updClL, hfind_mm]
    cases hu : findByIdL "mobileMenu" (instL hdrFrag d.nextRef).1 with
    | none =>
      rw [hu] at hmm_ref
      cases hmm_ref
    | some u =>
      rw [hu] at hmm_ref hmm_cls
      simp at hmm_ref hmm_cls
      simp only [Option.map]
      rw [updClT_elem, hmm_ref]
      simp [hmm_cls]
  · rw [hchar]
    rw [menuHidden_of_root _ (replaceL r (instL hdrFrag d.nextRef).1 d.root) rfl]
    rw [hfind_mm]
    cases hu : findByIdL "mobileMenu" (instL hdrFrag d.nextRef).1 with
    | none => rfl
    | some u =>
      rw [hu] at hmm_cls
      simp at hmm_cls
      simp [hmm_cls, navCls]
  · rw [hchar]
    exact hsel

theorem clicks_mounted (d : Dom) (r : Nat)
    (hH : ∀ p ∈ d.handlers, p.1 < d.nextRef) :
    ∀ k : Nat, clicks (hdrMounted d r) (d.nextRef + 7) k
      = ⟨updClL (d.nextRef + 9) (fun c => toggleCls^[k] c) (hdrMounted d r).root,
         d.handlers ++ trio d.nextRef, d.nextRef + 13⟩
| 0 => by
  show hdrMounted d r = _
  rw [show (fun c => toggleCls^[0] c) = fun c => c from rfl, updCl_idL]
  exact rfl
| k + 1 => by
  show click (clicks (hdrMounted d r) (d.nextRef + 7) k) (d.nextRef + 7) = _
  rw [clicks_mounted d r hH k,
    click_mounted_mb d.handlers d.nextRef _ (d.nextRef + 13) hH,
    updCl_compL]
  have hiter : (fun c => toggleCls ((fun c => toggleCls^[k] c) c))
      = (fun c => toggleCls^[k + 1] c) := by
    funext c
    rw [Function.iterate_succ_apply']
  rw [hiter]

theorem coarse_to_fine (d : Dom) (r : Nat)
    (h : getElementById d "header-container" = some r)
    (hmb0 : sumEL (idE "menuBtn") d.root = 0)
    (hmm0 : sumEL (idE "mobileMenu") d.root = 0) :
    ∃ e old, findByIdL "header-container" d.root = some (.mk e old)
      ∧ e.ref = r
      ∧ sumEL (idE "menuBtn") d.root = sumEL (idE "menuBtn") old
      ∧ sumEL (idE "mobileMenu") d.root = sumEL (idE "mobileMenu") old
      ∧ sumEL (idE "menuBtn") old = 0 ∧ sumEL (idE "mobileMenu") old = 0 := by
  obtain ⟨u, hu, hur⟩ : ∃ u, findByIdL "header-container" d.root = some u
      ∧ (Node.elemOf u).ref = r := by
    unfold getElementById at h
    cases hfu : findByIdL "header-container" d.root with
    | none => rw [hfu] at h; cases h
    | some u =>
      rw [hfu] at h
      simp at h
      exact ⟨u, rfl, h⟩
  cases u with
  | mk e old =>
    have hle_mb := find_sum_leL (idE "menuBtn") "header-container" d.root (Node.mk e old) hu
    have hle_mb' : idE "menuBtn" e + sumEL (idE "menuBtn") old
        ≤ sumEL (idE "menuBtn") d.root := hle_mb
    have hle_mm := find_sum_leL (idE "mobileMenu") "header-container" d.root
      (Node.mk e old) hu
    have hle_mm' : idE "mobileMenu" e + sumEL (idE "mobileMenu") old
        ≤ sumEL (idE "mobileMenu") d.root := hle_mm
    exact ⟨e, old, hu, hur, by omega, by omega, by omega, by omega⟩

theorem gid_some (d : Dom) (s : String) (r : Nat)
    (h : getElementById d s = some r) :
    ∃ u, findByIdL s d.root = some u ∧ (Node.elemOf u).ref = r := by
  unfold getElementById at h
  cases hfu : findByIdL s d.root with
  | none => rw [hfu] at h; cases h
  | some u =>
    rw [hfu] at h
    simp at h
    exact ⟨u, rfl, h⟩

theorem togE_le_idE : ∀ e : Elem, togE e ≤ idE "menuBtn" e := by
  intro e
  unfold togE idE
  by_cases h1 : e.tag = "button" ∧ e.idAttr = some "menuBtn"
  · simp [h1, h1.2]
  · simp [h1]

/-! ## The claims -/

/-- C1: for every document containing the header placeholder (the first
element with id header-container, of identity r), after invoking
loadHeader the content of the placeholder is non empty and holds exactly
one menu toggle button (a button with id menuBtn) and exactly one brand
link (a link wrapping the site heading). -/
theorem spec_header_fills_placeholder (d : Dom) (r : Nat)
    (h : getElementById d "header-container" = some r) :
    kidsOf (loadHeader d) r ≠ .nil
    ∧ sumEL togE (kidsOf (loadHeader d) r) = 1
    ∧ countBrandL (kidsOf (loadHeader d) r) = 1 := by
  obtain ⟨u, hu, hur⟩ := gid_some d "header-container" r h
  have hocc : ¬ nodeOfL r d.root = none := by
    intro hz
    have h0 : sumEL (refE r) d.root = 0 := (nodeOf_none_iffL r d.root).mp hz
    have h1 := find_refL "header-container" d.root u hu
    rw [hur] at h1
    omega
  obtain ⟨v, hv⟩ : ∃ v, nodeOfL r d.root = some v := by
    cases hnv : nodeOfL r d.root with
    | none => exact absurd hnv hocc
    | some v => exact ⟨v, rfl⟩
  cases v with
  | mk e2 old2 =>
    have hrep := nodeOf_replaceL r (instL hdrFrag d.nextRef).1 d.root e2 old2 hv
    have hroot := (loadHeader_root d r h).1
    have hkids : kidsOf (loadHeader d) r = (instL hdrFrag d.nextRef).1 := by
      unfold kidsOf
      rw [hroot, hrep]
      rfl
    rw [hkids]
    have hshift := instL_hdr d.nextRef
    refine ⟨?_, ?_, ?_⟩
    · rw [hshift.1]
      rw [show (instL hdrFrag 0).1
          = NodeList.cons (instT headerTmpl 0).1 NodeList.nil from rfl]
      simp [shiftL]
    · rw [hshift.1, sum_shiftL togE (fun r' e' => rfl) d.nextRef, hdr_tog0]
    · rw [hshift.1, brand_shiftL, hdr_brand0]

/-- C1 witness: the representative host page. -/
theorem spec_header_fills_placeholder_witness :
    kidsOf (loadHeader samplePage) 2 ≠ .nil
    ∧ sumEL togE (kidsOf (loadHeader samplePage) 2) = 1
    ∧ countBrandL (kidsOf (loadHeader samplePage) 2) = 1 :=
  spec_header_fills_placeholder samplePage 2 (by decide)

/-- C4: on every document exposing the footer placeholder, loadFooter
fills its content with the copyright line; on every document lacking it,
loadFooter is a no-op (and, the embedding being total, raises nothing). -/
theorem spec_footer_contract :
    (∀ (d : Dom) (r : Nat), getElementById d "footer-container" = some r →
      1 ≤ sumEL (textE copyTxt) (kidsOf (loadFooter d) r))
    ∧ ∀ d : Dom, getElementById d "footer-container" = none → loadFooter d = d := by
  constructor
  · intro d r h
    obtain ⟨u, hu, hur⟩ := gid_some d "footer-container" r h
    have hocc : ¬ nodeOfL r d.root = none := by
      intro hz
      have h0 : sumEL (refE r) d.root = 0 := (nodeOf_none_iffL r d.root).mp hz
      have h1 := find_refL "footer-container" d.root u hu
      rw [hur] at h1
      omega
    obtain ⟨v, hv⟩ : ∃ v, nodeOfL r d.root = some v := by
      cases hnv : nodeOfL r d.root with
      | none => exact absurd hnv hocc
      | some v => exact ⟨v, rfl⟩
    cases v with
    | mk e2 old2 =>
      have hrep := nodeOf_replaceL r (instL ftrFrag d.nextRef).1 d.root e2 old2 hv
      have hload := loadFooter_some d r h
      have hkids : kidsOf (loadFooter d) r = (instL ftrFrag d.nextRef).1 := by
        unfold kidsOf
        rw [hload]
        show (match nodeOfL r (replaceL r (instL ftrFrag d.nextRef).1 d.root) with
          | some t => Node.kids t
          | none => NodeList.nil) = (instL ftrFrag d.nextRef).1
        rw [hrep]
        rfl
      rw [hkids]
      have hshift := instL_ftr d.nextRef
      rw [hshift.1, sum_shiftL (textE copyTxt) (fun r' e' => rfl) d.nextRef, ftr_text0]
  · intro d h
    exact loadFooter_none_eq d h

/-- C4 witness: the representative host page and a page without the
placeholder. -/
theorem spec_footer_contract_witness :
    1 ≤ sumEL (textE copyTxt) (kidsOf (loadFooter samplePage) 3)
    ∧ loadFooter barePage = barePage :=
  ⟨spec_footer_contract.1 samplePage 3 (by decide),
   spec_footer_contract.2 barePage (by decide)⟩

/-- C5: on every document lacking the header placeholder, loadHeader is
a no-op: the document is returned unmodified, no content changes and no
listener is registered (the embedding being total, nothing is raised). -/
theorem spec_header_absent_noop (d : Dom)
    (h : getElementById d "header-container" = none) :
    loadHeader d = d := by
  unfold loadHeader
  rw [h]

/-- C5 witness: a page without the placeholder. -/
theorem spec_header_absent_noop_witness : loadHeader barePage = barePage :=
  spec_header_absent_noop barePage (by decide)

/-- C7: for both components, running the script while the document is
loading registers the mount on the one-time ready signal and runs nothing
yet; the signal then runs every registered mount exactly once, ours last,
and cannot fire again; running the script after the signal has fired runs
the mount immediately and synchronously, exactly once. -/
theorem spec_mount_scheduling (m : MountKind) (p : Page) :
    (p.ready = .loading →
      runScript m p = ({ p with listeners := p.listeners ++ [m] }, 0)
      ∧ (fireReady (runScript m p).1).2 = p.listeners.length + 1
      ∧ (fireReady (runScript m p).1).1.dom
          = runMount m (p.listeners.foldl (fun dm mk => runMount mk dm) p.dom)
      ∧ fireReady (fireReady (runScript m p).1).1 = ((fireReady (runScript m p).1).1, 0))
    ∧ (¬ p.ready = .loading →
      runScript m p = ({ p with dom := runMount m p.dom }, 1)) := by
  constructor
  · intro h
    refine ⟨by simp [runScript, h], ?_, ?_, ?_⟩
    · simp [runScript, fireReady, h]
    · simp [runScript, fireReady, h, List.foldl_append]
    · simp [runScript, fireReady, h]
  · intro h
    simp [runScript, h]

/-- C7 witness: both scheduling paths on the representative page. -/
theorem spec_mount_scheduling_witness :
    (runScript .header ⟨samplePage, .loading, []⟩
        = ({ dom := samplePage, ready := .loading, listeners := [MountKind.header] }, 0)
      ∧ (fireReady (runScript .header ⟨samplePage, .loading, []⟩).1).2 = 1
      ∧ (fireReady (runScript .header ⟨samplePage, .loading, []⟩).1).1.dom
          = loadHeader samplePage
      ∧ fireReady (fireReady (runScript .header ⟨samplePage, .loading, []⟩).1).1
          = ((fireReady (runScript .header ⟨samplePage, .loading, []⟩).1).1, 0))
    ∧ runScript .header ⟨samplePage, .complete, []⟩
        = ({ dom := loadHeader samplePage, ready := .complete, listeners := [] }, 1) := by
  refine ⟨?_, ?_⟩
  · exact (spec_mount_scheduling .header ⟨samplePage, .loading, []⟩).1 rfl
  · exact (spec_mount_scheduling .header ⟨samplePage, .complete, []⟩).2 (by decide)

/-- C9: on a page that already holds an element with id menuBtn earlier
in document order than the container, the click handlers attach to that
pre-existing element (identity 1) and not to the freshly injected button
(identity 10); the run completes, and being a total function it raises
nothing on any input. -/
theorem spec_global_lookup_shadowing :
    getElementById (loadHeader dupIdPage) "menuBtn" = some 1
    ∧ (findByIdL "menuBtn" (kidsOf (loadHeader dupIdPage) 2)).map
        (fun t => (Node.elemOf t).ref) = some 10
    ∧ (loadHeader dupIdPage).handlers
        = [(1, .toggleHidden 12), (14, .addHidden 12), (15, .addHidden 12)] := by
  decide

/-- C6 counterexample: a document carrying a toggle button outside the
container satisfies the premise of the claim, yet after two invocations
the final document holds two toggle buttons, not exactly one. -/
theorem spec_double_mount_count_cex :
    getElementById dupBtnPage "header-container" = some 2
    ∧ sumEL togE (loadHeader (loadHeader dupBtnPage)).root = 2 := by
  decide

/-- C8 counterexample: on a document with a duplicate id menuBtn earlier
in document order, loadHeader registers a click listener on element 1,
which lies outside the subtree of the header container (element 2), so
the modification is not confined to the container subtree. -/
theorem spec_frame_cex :
    (loadHeader dupIdPage).handlers.map Prod.fst = [1, 14, 15]
    ∧ subtreeSum (refE 1) (loadHeader dupIdPage) 2 = 0
    ∧ subtreeSum (refE 1) (loadHeader dupIdPage) 0 = 1 := by
  decide

/-- C10 counterexample: a document holding elements with ids menuBtn and
mobileMenu before the container: both invocations bind their toggle to
the same surviving pre-existing elements, so a single click on the
current toggle button fires two toggles and leaves the panel visibility
unchanged rather than flipping it exactly once. -/
theorem spec_double_toggle_cex :
    getElementById dupBothPage "header-container" = some 3
    ∧ getElementById (loadHeader (loadHeader dupBothPage)) "menuBtn" = some 1
    ∧ menuHidden (click (loadHeader (loadHeader dupBothPage)) 1)
        = menuHidden (loadHeader (loadHeader dupBothPage)) := by
  decide

/-- C8 amended: whenever the targeted placeholder is present, erasing the
content of the placeholder recovers the original document: both mounts
leave content and attributes of every element outside the targeted
subtree unchanged, and loadFooter registers no listener; loadHeader may
however register listeners outside the container when duplicate ids
shadow the injected elements. -/
theorem spec_frame_amended (d : Dom) :
    (∀ r : Nat, getElementById d "header-container" = some r →
      replaceL r .nil (loadHeader d).root = replaceL r .nil d.root)
    ∧ (∀ r : Nat, getElementById d "footer-container" = some r →
      replaceL r .nil (loadFooter d).root = replaceL r .nil d.root
      ∧ (loadFooter d).handlers = d.handlers) := by
  constructor
  · intro r h
    rw [(loadHeader_root d r h).1, replace_collapseL]
  · intro r h
    refine ⟨?_, loadFooter_handlers d⟩
    rw [loadFooter_some d r h]
    show replaceL r .nil (replaceL r (instL ftrFrag d.nextRef).1 d.root)
        = replaceL r .nil d.root
    rw [replace_collapseL]

/-- C8 amended witness: the representative host page. -/
theorem spec_frame_amended_witness :
    replaceL 2 .nil (loadHeader samplePage).root = replaceL 2 .nil samplePage.root
    ∧ replaceL 3 .nil (loadFooter samplePage).root = replaceL 3 .nil samplePage.root :=
  ⟨(spec_frame_amended samplePage).1 2 (by decide),
   ((spec_frame_amended samplePage).2 3 (by decide)).1⟩

/-- C2: on a well formed host page (placeholder present with a unique
identity, no pre-existing element with id menuBtn or mobileMenu, no
listener registered on an unallocated identity), starting from the
freshly mounted header the mobile panel starts hidden and clicking the
menu toggle button k times leaves the panel hidden exactly when k is
even, for every k. -/
theorem spec_toggle_parity (d : Dom) (r : Nat)
    (h : getElementById d "header-container" = some r)
    (hrc : sumEL (refE r) d.root = 1)
    (hmb0 : sumEL (idE "menuBtn") d.root = 0)
    (hmm0 : sumEL (idE "mobileMenu") d.root = 0)
    (hH : ∀ p ∈ d.handlers, p.1 < d.nextRef) :
    ∃ mb, getElementById (loadHeader d) "menuBtn" = some mb ∧
      ∀ k : Nat, (menuHidden (clicks (loadHeader d) mb k) = true ↔ k % 2 = 0) := by
  obtain ⟨e, old, hu, hur, hfmb, hfmm, hold_mb, hold_mm⟩ :=
    coarse_to_fine d r h hmb0 hmm0
  obtain ⟨hchar, hgidmb, hg, hhid, hsel⟩ := mounted_all d r e old hu hur hrc hfmb hfmm
  refine ⟨d.nextRef + 7, hgidmb, ?_⟩
  intro k
  rw [hchar, clicks_mounted d r hH k]
  have hX : menuHidden (⟨updClL (d.nextRef + 9) (fun c => toggleCls^[k] c)
        (hdrMounted d r).root, d.handlers ++ trio d.nextRef, d.nextRef + 13⟩ : Dom)
      = decide ("hidden" ∈ (fun c => toggleCls^[k] c) navCls) :=
    hg (fun c => toggleCls^[k] c)
  rw [hX]
  have hmem := toggle_iterate_mem navCls k
  have hin : "hidden" ∈ navCls := by simp [navCls]
  simp only [decide_eq_true_eq]
  rw [hmem]
  simp [hin]

/-- C2 witness: the representative host page. -/
theorem spec_toggle_parity_witness :
    ∃ mb, getElementById (loadHeader samplePage) "menuBtn" = some mb ∧
      ∀ k : Nat, (menuHidden (clicks (loadHeader samplePage) mb k) = true ↔ k % 2 = 0) :=
  spec_toggle_parity samplePage 2 (by decide) (by decide) (by decide) (by decide)
    (by decide)

/-- C3: on a well formed host page, after mounting the header, clicking
any link of the mobile panel puts the panel into the hidden state, no
matter how many toggle clicks preceded. -/
theorem spec_link_click_closes (d : Dom) (r : Nat)
    (h : getElementById d "header-container" = some r)
    (hrc : sumEL (refE r) d.root = 1)
    (hmb0 : sumEL (idE "menuBtn") d.root = 0)
    (hmm0 : sumEL (idE "mobileMenu") d.root = 0)
    (hH : ∀ p ∈ d.handlers, p.1 < d.nextRef) :
    ∃ mb, getElementById (loadHeader d) "menuBtn" = some mb ∧
      ∀ (k l : Nat), l ∈ selLinksL (loadHeader d).root →
        menuHidden (click (clicks (loadHeader d) mb k) l) = true := by
  obtain ⟨e, old, hu, hur, hfmb, hfmm, hold_mb, hold_mm⟩ :=
    coarse_to_fine d r h hmb0 hmm0
  obtain ⟨hchar, hgidmb, hg, hhid, hsel⟩ := mounted_all d r e old hu hur hrc hfmb hfmm
  refine ⟨d.nextRef + 7, hgidmb, ?_⟩
  intro k l hl
  rw [hsel] at hl
  simp at hl
  rw [hchar, clicks_mounted d r hH k,
    click_mounted_link d.handlers d.nextRef _ (d.nextRef + 13) hH l hl, updCl_compL]
  have hX : menuHidden (⟨updClL (d.nextRef + 9)
        (fun c => addCls ((fun c => toggleCls^[k] c) c))
        (hdrMounted d r).root, d.handlers ++ trio d.nextRef, d.nextRef + 13⟩ : Dom)
      = decide ("hidden" ∈ (fun c => addCls ((fun c => toggleCls^[k] c) c)) navCls) :=
    hg (fun c => addCls ((fun c => toggleCls^[k] c) c))
  rw [hX]
  simp [mem_addCls]

/-- C3 witness: the representative host page. -/
theorem spec_link_click_closes_witness :
    ∃ mb, getElementById (loadHeader samplePage) "menuBtn" = some mb ∧
      ∀ (k l : Nat), l ∈ selLinksL (loadHeader samplePage).root →
        menuHidden (click (clicks (loadHeader samplePage) mb k) l) = true :=
  spec_link_click_closes samplePage 2 (by decide) (by decide) (by decide) (by decide)
    (by decide)

/-- C6 amended: on a well formed host page (placeholder present with a
unique identity below the allocation counter) that initially holds no
toggle button and no mobile panel, invoking loadHeader twice leaves
exactly one toggle button and exactly one mobile panel in the final
document: the second invocation overwrites the container content rather
than appending. -/
theorem spec_double_mount_count_amended (d : Dom) (r : Nat)
    (h : getElementById d "header-container" = some r)
    (hrc : sumEL (refE r) d.root = 1)
    (hlt : r < d.nextRef)
    (hmb0 : sumEL (idE "menuBtn") d.root = 0)
    (hmm0 : sumEL (idE "mobileMenu") d.root = 0) :
    sumEL togE (loadHeader (loadHeader d)).root = 1
    ∧ sumEL (idE "mobileMenu") (loadHeader (loadHeader d)).root = 1 := by
  obtain ⟨e, old, hu, hur, hfmb, hfmm, hold_mb, hold_mm⟩ :=
    coarse_to_fine d r h hmb0 hmm0
  have hnode : nodeOfL r d.root = some (.mk e old) :=
    find_nodeOfL "header-container" r d.root (Node.mk e old) hrc hu hur
  have hshift := instL_hdr d.nextRef
  have hroot1 := loadHeader_root d r h
  have htog0 : sumEL togE d.root = 0 := by
    have := sum_monoL togE (idE "menuBtn") togE_le_idE d.root
    omega
  have hold_tog : togE e + sumEL togE old ≤ sumEL togE d.root :=
    nodeOf_sum_leL togE r d.root (Node.mk e old) hnode
  have hold_tog0 : sumEL togE old = 0 := by omega
  have hold_pan : idE "mobileMenu" e + sumEL (idE "mobileMenu") old
      ≤ sumEL (idE "mobileMenu") d.root :=
    nodeOf_sum_leL (idE "mobileMenu") r d.root (Node.mk e old) hnode
  have hold_pan0 : sumEL (idE "mobileMenu") old = 0 := by omega
  have heref : refE r e = 1 := by simp [refE, hur]
  have hold_ref : refE r e + sumEL (refE r) old ≤ sumEL (refE r) d.root :=
    nodeOf_sum_leL (refE r) r d.root (Node.mk e old) hnode
  have hold_ref0 : sumEL (refE r) old = 0 := by omega
  have hcs_tog : sumEL togE (instL hdrFrag d.nextRef).1 = 1 := by
    rw [hshift.1, sum_shiftL togE (fun r' e' => rfl) d.nextRef, hdr_tog0]
  have hcs_pan : sumEL (idE "mobileMenu") (instL hdrFrag d.nextRef).1 = 1 := by
    rw [hshift.1, sum_shiftL (idE "mobileMenu") (fun r' e' => rfl) d.nextRef, hdr_pan0]
  have hcs_ref : sumEL (refE r) (instL hdrFrag d.nextRef).1 = 0 :=
    (inst_boundL hdrFrag d.nextRef).2 r hlt
  have hrep1 := sum_replaceL togE r (instL hdrFrag d.nextRef).1 d.root e old hrc hnode
  have htog1 : sumEL togE (replaceL r (instL hdrFrag d.nextRef).1 d.root) = 1 := by
    omega
  have hrep1p := sum_replaceL (idE "mobileMenu") r (instL hdrFrag d.nextRef).1 d.root
    e old hrc hnode
  have hpan1 : sumEL (idE "mobileMenu")
      (replaceL r (instL hdrFrag d.nextRef).1 d.root) = 1 := by
    omega
  have hrep1r := sum_replaceL (refE r) r (instL hdrFrag d.nextRef).1 d.root e old
    hrc hnode
  have href1 : sumEL (refE r) (replaceL r (instL hdrFrag d.nextRef).1 d.root) = 1 := by
    omega
  have hnode1 : nodeOfL r (replaceL r (instL hdrFrag d.nextRef).1 d.root)
      = some (.mk e (instL hdrFrag d.nextRef).1) :=
    nodeOf_replaceL r (instL hdrFrag d.nextRef).1 d.root e old hnode
  have hfind1 : findByIdL "header-container"
      (replaceL r (instL hdrFrag d.nextRef).1 d.root)
      = some (.mk e (instL hdrFrag d.nextRef).1) :=
    find_replaceL "header-container" r (instL hdrFrag d.nextRef).1 d.root e old
      hrc hu hur
  have hgid1 : getElementById (loadHeader d) "header-container" = some r := by
    unfold getElementById
    rw [hroot1.1, hfind1]
    simp [Node.elemOf, hur]
  have hroot2 := loadHeader_root (loadHeader d) r hgid1
  have hnext1 : (loadHeader d).nextRef = d.nextRef + 13 := by
    rw [hroot1.2, hshift.2]
  have hshift2 := instL_hdr (d.nextRef + 13)
  have hcs2_tog : sumEL togE (instL hdrFrag (d.nextRef + 13)).1 = 1 := by
    rw [hshift2.1, sum_shiftL togE (fun r' e' => rfl) (d.nextRef + 13), hdr_tog0]
  have hcs2_pan : sumEL (idE "mobileMenu") (instL hdrFrag (d.nextRef + 13)).1 = 1 := by
    rw [hshift2.1, sum_shiftL (idE "mobileMenu") (fun r' e' => rfl) (d.nextRef + 13),
      hdr_pan0]
  have hrep2 := sum_replaceL togE r (instL hdrFrag (d.nextRef + 13)).1
    (replaceL r (instL hdrFrag d.nextRef).1 d.root) e (instL hdrFrag d.nextRef).1
    href1 hnode1
  have hrep2p := sum_replaceL (idE "mobileMenu") r (instL hdrFrag (d.nextRef + 13)).1
    (replaceL r (instL hdrFrag d.nextRef).1 d.root) e (instL hdrFrag d.nextRef).1
    href1 hnode1
  constructor
  · rw [hroot2.1, hnext1, hroot1.1]
    omega
  · rw [hroot2.1, hnext1, hroot1.1]
    omega

/-- C6 amended witness: the representative host page. -/
theorem spec_double_mount_count_amended_witness :
    sumEL togE (loadHeader (loadHeader samplePage)).root = 1
    ∧ sumEL (idE "mobileMenu") (loadHeader (loadHeader samplePage)).root = 1 :=
  spec_double_mount_count_amended samplePage 2 (by decide) (by decide) (by decide)
    (by decide) (by decide)

/-- C10 amended: on a well formed host page (placeholder present with a
unique identity below the allocation counter, no pre-existing element
with id menuBtn or mobileMenu, no listener on an unallocated identity),
after invoking loadHeader twice in succession a single click on the
current toggle button flips the visibility of the current mobile panel
exactly once: the panel starts hidden, one click shows it, another click
hides it again — the handlers of the first invocation are bound to
elements discarded by the second innerHTML assignment and never fire. -/
theorem spec_double_toggle_amended (d : Dom) (r : Nat)
    (h : getElementById d "header-container" = some r)
    (hrc : sumEL (refE r) d.root = 1)
    (hlt : r < d.nextRef)
    (hmb0 : sumEL (idE "menuBtn") d.root = 0)
    (hmm0 : sumEL (idE "mobileMenu") d.root = 0)
    (hH : ∀ p ∈ d.handlers, p.1 < d.nextRef) :
    ∃ mb, getElementById (loadHeader (loadHeader d)) "menuBtn" = some mb
      ∧ menuHidden (loadHeader (loadHeader d)) = true
      ∧ menuHidden (click (loadHeader (loadHeader d)) mb) = false
      ∧ menuHidden (click (click (loadHeader (loadHeader d)) mb) mb) = true := by
  obtain ⟨e, old, hu, hur, hfmb, hfmm, hold_mb, hold_mm⟩ :=
    coarse_to_fine d r h hmb0 hmm0
  obtain ⟨hchar1, hgid1mb, hg1, hhid1, hsel1⟩ :=
    mounted_all d r e old hu hur hrc hfmb hfmm
  have hnode : nodeOfL r d.root = some (.mk e old) :=
    find_nodeOfL "header-container" r d.root (Node.mk e old) hrc hu hur
  have heref : refE r e = 1 := by simp [refE, hur]
  have hold_ref : refE r e + sumEL (refE r) old ≤ sumEL (refE r) d.root :=
    nodeOf_sum_leL (refE r) r d.root (Node.mk e old) hnode
  have hold_ref0 : sumEL (refE r) old = 0 := by omega
  have hcs_ref : sumEL (refE r) (instL hdrFrag d.nextRef).1 = 0 :=
    (inst_boundL hdrFrag d.nextRef).2 r hlt
  have hrep1r := sum_replaceL (refE r) r (instL hdrFrag d.nextRef).1 d.root e old
    hrc hnode
  have href1 : sumEL (refE r) (hdrMounted d r).root = 1 := by
    show sumEL (refE r) (replaceL r (instL hdrFrag d.nextRef).1 d.root) = 1
    omega
  have hfind1 : findByIdL "header-container" (hdrMounted d r).root
      = some (.mk e (instL hdrFrag d.nextRef).1) :=
    find_replaceL "header-container" r (instL hdrFrag d.nextRef).1 d.root e old
      hrc hu hur
  have hmb1 : sumEL (idE "menuBtn") (hdrMounted d r).root
      = sumEL (idE "menuBtn") (instL hdrFrag d.nextRef).1 := by
    show sumEL (idE "menuBtn") (replaceL r (instL hdrFrag d.nextRef).1 d.root)
      = sumEL (idE "menuBtn") (instL hdrFrag d.nextRef).1
    have := sum_replaceL (idE "menuBtn") r (instL hdrFrag d.nextRef).1 d.root e old
      hrc hnode
    omega
  have hmm1 : sumEL (idE "mobileMenu") (hdrMounted d r).root
      = sumEL (idE "mobileMenu") (instL hdrFrag d.nextRef).1 := by
    show sumEL (idE "mobileMenu") (replaceL r (instL hdrFrag d.nextRef).1 d.root)
      = sumEL (idE "mobileMenu") (instL hdrFrag d.nextRef).1
    have := sum_replaceL (idE "mobileMenu") r (instL hdrFrag d.nextRef).1 d.root e old
      hrc hnode
    omega
  obtain ⟨hchar2, hgid2, hg2, hhid2, hsel2⟩ :=
    mounted_all (hdrMounted d r) r e (instL hdrFrag d.nextRef).1 hfind1 hur href1
      hmb1 hmm1
  have hck : click (hdrMounted (hdrMounted d r) r) (d.nextRef + 13 + 7)
      = ⟨updClL (d.nextRef + 13 + 9) toggleCls (hdrMounted (hdrMounted d r) r).root,
         d.handlers ++ trio d.nextRef ++ trio (d.nextRef + 13),
         (hdrMounted (hdrMounted d r) r).nextRef⟩ :=
    click_mounted2_mb d.handlers d.nextRef
      (hdrMounted (hdrMounted d r) r).root (hdrMounted (hdrMounted d r) r).nextRef hH
  have hX : menuHidden
      (⟨updClL (d.nextRef + 13 + 9) toggleCls (hdrMounted (hdrMounted d r) r).root,
        d.handlers ++ trio d.nextRef ++ trio (d.nextRef + 13),
        (hdrMounted (hdrMounted d r) r).nextRef⟩ : Dom)
      = decide ("hidden" ∈ toggleCls navCls) := hg2 toggleCls
  have hck2 : click
      (⟨updClL (d.nextRef + 13 + 9) toggleCls (hdrMounted (hdrMounted d r) r).root,
        d.handlers ++ trio d.nextRef ++ trio (d.nextRef + 13),
        (hdrMounted (hdrMounted d r) r).nextRef⟩ : Dom) (d.nextRef + 13 + 7)
      = ⟨updClL (d.nextRef + 13 + 9) toggleCls
          (updClL (d.nextRef + 13 + 9) toggleCls (hdrMounted (hdrMounted d r) r).root),
         d.handlers ++ trio d.nextRef ++ trio (d.nextRef + 13),
         (hdrMounted (hdrMounted d r) r).nextRef⟩ :=
    click_mounted2_mb d.handlers d.nextRef
      (updClL (d.nextRef + 13 + 9) toggleCls (hdrMounted (hdrMounted d r) r).root)
      (hdrMounted (hdrMounted d r) r).nextRef hH
  have hX2 : menuHidden
      (⟨updClL (d.nextRef + 13 + 9) (fun c => toggleCls (toggleCls c))
          (hdrMounted (hdrMounted d r) r).root,
        d.handlers ++ trio d.nextRef ++ trio (d.nextRef + 13),
        (hdrMounted (hdrMounted d r) r).nextRef⟩ : Dom)
      = decide ("hidden" ∈ (fun c => toggleCls (toggleCls c)) navCls) :=
    hg2 (fun c => toggleCls (toggleCls c))
  refine ⟨d.nextRef + 13 + 7, ?_, ?_, ?_, ?_⟩
  · rw [hchar1]
    exact hgid2
  · rw [hchar1]
    exact hhid2
  · rw [hchar1, hchar2, hck, hX]
    decide
  · rw [hchar1, hchar2, hck, hck2, updCl_compL, hX2]
    decide

/-- C10 amended witness: the representative host page. -/
theorem spec_double_toggle_amended_witness :
    ∃ mb, getElementById (loadHeader (loadHeader samplePage)) "menuBtn" = some mb
      ∧ menuHidden (loadHeader (loadHeader samplePage)) = true
      ∧ menuHidden (click (loadHeader (loadHeader samplePage)) mb) = false
      ∧ menuHidden (click (click (loadHeader (loadHeader samplePage)) mb) mb) = true :=
  spec_double_toggle_amended samplePage 2 (by decide) (by decide) (by decide)
    (by decide) (by decide) (by decide)
